import Mathlib

/-!
Shallow embedding of the per-room game-session logic of the doodle repository.

The embedded code is `server/src/controllers/roomController.ts` (the
`RoomManager` class together with the `ServerRoom` shape and the `WORDS`
list) plus the thin dispatch layer in `server/src/socket.ts`.  Pure field
updates become Lean structure updates; the JavaScript `setInterval` /
`setTimeout` / `clearInterval` machinery is modelled by a `World` that,
besides the room, carries the multiset of currently scheduled (live,
not-yet-cancelled) timer tasks and a fresh-handle counter.  The
non-deterministic inputs of the original code (`Math.random`, `Date.now`)
are passed in as explicit parameters (`Math.floor(Math.random()*n)` is
modelled by `k % n` for an arbitrary `k`).
-/

namespace Doodle

/-- A connected player, `Player` in `server/src/types/index.ts`. -/
structure Player where
  id : String
  socketId : String
  name : String
  score : Nat
  isHost : Bool
  avatar : String
deriving DecidableEq, Repr

/-- Room lifecycle status: `'lobby' | 'playing' | 'ended'`. -/
inductive RoomStatus
  | lobby
  | playing
  | ended
deriving DecidableEq, Repr

/-- Round phase: `'starting' | 'selecting' | 'drawing' | 'review'`; the
TypeScript `null` case is `Option.none` at the use site. -/
inductive RoundPhase
  | starting
  | selecting
  | drawing
  | review
deriving DecidableEq, Repr

/-- Kind tag of one canvas stroke event (`DrawData.type`). -/
inductive DrawKind
  | start
  | draw
  | clear
deriving DecidableEq, Repr

/-- One canvas stroke event, `DrawData` in `server/src/types/index.ts`.
The numeric pixel coordinates are abstracted to `Int`; nothing in the
session logic ever reads them (the canvas relay is pure forwarding). -/
structure DrawData where
  kind : DrawKind
  x : Option Int
  y : Option Int
  color : Option String
  size : Option Nat
deriving DecidableEq, Repr

/-- Server-side room state: the `ServerRoom` interface of
`roomController.ts` (the public `Room` fields plus `secretWord`, `timer`
and `drawnPlayers`).  `timer` holds the handle of the interval most
recently stored in `room.timer` (`Option Nat`, a task id into the
`World.pending` list); like in JavaScript, `clearInterval` does not null
this field. -/
structure ServerRoom where
  id : String
  players : List Player
  status : RoomStatus
  currentRound : Nat
  totalRounds : Nat
  drawTime : Nat
  currentDrawerId : Option String
  currentWord : Option String
  secretWord : Option String
  wordsToChoose : List String
  maxPlayers : Nat
  hints : Nat
  roundPhase : Option RoundPhase
  roundStartTime : Option Nat
  guessedCorrectly : List String
  canvasHistory : List DrawData
  timer : Option Nat
  drawnPlayers : List String
deriving DecidableEq, Repr

/-- The sanitized client-facing room shape produced by `getPublicRoom`:
the rest-spread `const { secretWord, timer, ...publicRoom } = room` keeps
every `ServerRoom` field except `secretWord` and `timer` (in particular it
keeps `drawnPlayers`). -/
structure PublicRoom where
  id : String
  players : List Player
  status : RoomStatus
  currentRound : Nat
  totalRounds : Nat
  drawTime : Nat
  currentDrawerId : Option String
  currentWord : Option String
  wordsToChoose : List String
  maxPlayers : Nat
  hints : Nat
  roundPhase : Option RoundPhase
  roundStartTime : Option Nat
  guessedCorrectly : List String
  canvasHistory : List DrawData
  drawnPlayers : List String
deriving DecidableEq, Repr

/-- What a scheduled timer does when it expires.  `gameCountdown` is the
3-second `setInterval` of `startGame` (expiry runs `startNewRound`);
`selectionTimeout` is the 5-second selection interval of `startNewRound`
(expiry auto-selects the first offered word); `drawTimeout` is the
draw-time interval of `selectWord` (expiry runs `endRound`);
`reviewDelay` is the 5-second `setTimeout` of `endRound` (expiry runs
`startNewRound` unless the room has ended). -/
inductive TimerAction
  | gameCountdown
  | selectionTimeout
  | drawTimeout
  | reviewDelay
deriving DecidableEq, Repr

/-- One live scheduled timer task: its handle, its expiry action and its
countdown duration in seconds. -/
structure ScheduledTask where
  id : Nat
  action : TimerAction
  duration : Nat
deriving DecidableEq, Repr

/-- The state of one room together with its timer environment.
`room = none` means the room has been deleted from the registry;
`pending` is the list of scheduled timer tasks that are live (scheduled,
not yet cancelled and not yet fired); `nextTaskId` generates fresh
handles. -/
structure World where
  room : Option ServerRoom
  pending : List ScheduledTask
  nextTaskId : Nat
deriving DecidableEq, Repr

/-- The shared word list `WORDS` of `roomController.ts`. -/
def WORDS : List String :=
  ["APPLE", "BANANA", "CAT", "DOG", "ELEPHANT", "FISH", "GUITAR", "HOUSE", "ICE CREAM",
   "JELLYFISH", "KITE", "LION", "MOON", "NEST", "OCTOPUS", "PENGUIN", "QUEEN", "ROBOT",
   "SUN", "TREE", "UMBRELLA", "VIOLIN", "WHALE", "XYLOPHONE", "YACHT", "ZEBRA", "CAR",
   "BUS", "TRAIN", "AIRPLANE", "BOAT", "BIKE", "COMPUTER", "PHONE", "BOOK", "PEN", "PENCIL"]

/-- Placeholder player used only as the default of total list indexing
(`List.getD`); every use site first establishes that the index is in
bounds, so the placeholder is never returned. -/
def dummyPlayer : Player :=
  { id := "", socketId := "", name := "", score := 0, isHost := false, avatar := "" }

/-- Model of `if (room.timer) clearInterval(room.timer)`: the task whose
handle is stored in `room.timer` is removed from the live set.  As in
JavaScript, the `room.timer` field itself keeps its (now stale) value. -/
def clearRoomTimer (w : World) : World :=
  match w.room with
  | none => w
  | some r =>
    match r.timer with
    | none => w
    | some tid => { w with pending := w.pending.filter (fun t => t.id != tid) }

/-- Model of `room.timer = setInterval(...)`: a fresh task is scheduled
and its handle is recorded in `room.timer`. -/
def scheduleTimer (w : World) (a : TimerAction) (d : Nat) : World :=
  match w.room with
  | none => w
  | some r =>
    { room := some { r with timer := some w.nextTaskId },
      pending := w.pending ++ [⟨w.nextTaskId, a, d⟩],
      nextTaskId := w.nextTaskId + 1 }

/-- Model of a bare `setTimeout(...)` whose handle is not stored anywhere
(the post-review delay in `endRound`): the task joins the live set but no
room field records its handle. -/
def scheduleUntracked (w : World) (a : TimerAction) (d : Nat) : World :=
  { w with pending := w.pending ++ [⟨w.nextTaskId, a, d⟩], nextTaskId := w.nextTaskId + 1 }

/-- Sanitizer `getPublicRoom`: drops `secretWord` and `timer` via the
rest-spread and then overwrites `wordsToChoose` with `[]`. -/
def getPublicRoom (r : ServerRoom) : PublicRoom :=
  { id := r.id, players := r.players, status := r.status,
    currentRound := r.currentRound, totalRounds := r.totalRounds,
    drawTime := r.drawTime, currentDrawerId := r.currentDrawerId,
    currentWord := r.currentWord, wordsToChoose := [],
    maxPlayers := r.maxPlayers, hints := r.hints, roundPhase := r.roundPhase,
    roundStartTime := r.roundStartTime, guessedCorrectly := r.guessedCorrectly,
    canvasHistory := r.canvasHistory, drawnPlayers := r.drawnPlayers }

/-- `createRoom`: a fresh room in the lobby with the creator as sole
player and host.  The generated 6-character room id is passed in
(`uuidv4().slice(0,6).toUpperCase()` is external randomness). -/
def createRoom (roomId username avatar socketId : String)
    (drawTime : Nat) (rounds : Nat) : World :=
  { room := some
      { id := roomId,
        players := [{ id := socketId, socketId := socketId, name := username,
                      score := 0, isHost := true, avatar := avatar }],
        status := .lobby, currentRound := 1, totalRounds := rounds,
        drawTime := drawTime, currentDrawerId := none, currentWord := none,
        secretWord := none, wordsToChoose := [], maxPlayers := 8, hints := 2,
        roundPhase := none, roundStartTime := none, guessedCorrectly := [],
        canvasHistory := [], timer := none, drawnPlayers := [] },
    pending := [], nextTaskId := 0 }

/-- `joinRoom`: rejects a missing room ("Room not found") and a full room
("Room is full"); otherwise appends a non-host player.  The second
component is the error string, `none` on success. -/
def joinRoom (w : World) (username avatar socketId : String) :
    World × Option String :=
  match w.room with
  | none => (w, some "Room not found")
  | some r =>
    if r.players.length ≥ r.maxPlayers then (w, some "Room is full")
    else
      let r1 := { r with players := r.players ++
        [{ id := socketId, socketId := socketId, name := username,
           score := 0, isHost := false, avatar := avatar }] }
      ({ w with room := some r1 }, none)

/-- Index of the first player whose `socketId` matches, as in
`players.findIndex(p => p.socketId === socketId)` (`none` is `-1`). -/
def findPlayerIdx : List Player → String → Option Nat
  | [], _ => none
  | p :: rest, sid =>
    if p.socketId = sid then some 0
    else (findPlayerIdx rest sid).map (· + 1)

/-- Removal of the element at an index, as in `players.splice(idx, 1)`. -/
def removeAt : List Player → Nat → List Player
  | [], _ => []
  | _ :: rest, 0 => rest
  | p :: rest, n + 1 => p :: removeAt rest n

/-- Setting `isHost = true` on the player at an index, as in
`players[newHostIndex].isHost = true`. -/
def assignHostAt : List Player → Nat → List Player
  | [], _ => []
  | p :: rest, 0 => { p with isHost := true } :: rest
  | p :: rest, n + 1 => p :: assignHostAt rest n

/-- Adding points to the score of the first player with a matching `id`,
as in `players.find(p => p.id === pid)` followed by `player.score += pts`
(absent id: no-op, like the `if (player)` guard). -/
def bumpScoreFirst : List Player → String → Nat → List Player
  | [], _, _ => []
  | p :: rest, pid, pts =>
    if p.id = pid then { p with score := p.score + pts } :: rest
    else p :: bumpScoreFirst rest pid pts

/-- Score bump keyed by an optional id: `p.id === room.currentDrawerId`
never holds when `currentDrawerId` is `null`. -/
def bumpScoreFirstOpt (ps : List Player) (pid : Option String) (pts : Nat) :
    List Player :=
  match pid with
  | none => ps
  | some pid => bumpScoreFirst ps pid pts

/-- `endRound`: cancels the recorded timer, reveals the secret word into
the public `currentWord`, enters `review`, and schedules the 5-second
post-review `setTimeout` — whose handle, unlike every interval, is not
recorded in `room.timer`. -/
def endRound (w : World) : World :=
  match w.room with
  | none => w
  | some r =>
    let w1 := clearRoomTimer w
    let r1 := { r with currentWord := r.secretWord, roundPhase := some .review }
    scheduleUntracked { w1 with room := some r1 } TimerAction.reviewDelay 5

/-- `leaveRoom`: removes the player found by socket id; deletes the room
(cancelling its recorded timer) when it empties; otherwise reassigns the
host at random when the host left, and ends the turn early when the
current drawer left mid-game.  `hostRand` models
`Math.floor(Math.random() * players.length)` via `hostRand % length`. -/
def leaveRoom (w : World) (socketId : String) (hostRand : Nat) : World :=
  match w.room with
  | none => w
  | some r =>
    match findPlayerIdx r.players socketId with
    | none => w
    | some idx =>
      let wasHost := (r.players.getD idx dummyPlayer).isHost
      let wasDrawer := r.currentDrawerId = some socketId
      let players1 := removeAt r.players idx
      if players1.isEmpty then
        let w1 := clearRoomTimer w
        { w1 with room := none }
      else
        let players2 :=
          if wasHost then assignHostAt players1 (hostRand % players1.length)
          else players1
        let w2 := { w with room := some { r with players := players2 } }
        if wasDrawer ∧ r.status = .playing then endRound w2 else w2

/-- `startGame`: cancels the recorded timer, enters `playing`/`starting`,
resets the round counter and `drawnPlayers` (note: `guessedCorrectly` is
not touched here), and schedules the 3-second countdown interval whose
expiry runs the first `startNewRound`. -/
def startGame (w : World) : World :=
  match w.room with
  | none => w
  | some r =>
    let w1 := clearRoomTimer w
    let r1 := { r with
                status := RoomStatus.playing
                currentRound := 1
                drawnPlayers := []
                roundPhase := some .starting }
    scheduleTimer { w1 with room := some r1 } TimerAction.gameCountdown 3

/-- Turn advance `startNewRound`, with explicit fuel for the defensive
`availableDrawers.length === 0` fallback that clears `drawnPlayers` and
recurses.  With a non-empty player list that fallback recursion reaches
depth at most one, so fuel 2 (see `startNewRound`) is exact; the fuel-0
base case models the (unreachable on non-empty rooms) infinite loop of
the original code by returning the world unchanged.  `dRand` models the
random drawer index, `k1 k2 k3` the three random word indices. -/
def startNewRoundFuel : Nat → World → Nat → Nat → Nat → Nat → World
  | 0, w, _, _, _, _ => w
  | fuel + 1, w, dRand, k1, k2, k3 =>
    match w.room with
    | none => w
    | some r =>
      let w1 := clearRoomTimer w
      let activeIds := r.players.map Player.id
      let drawnF := r.drawnPlayers.filter (fun pid => activeIds.contains pid)
      let cycleDone := drawnF.length ≥ r.players.length
      let round1 := if cycleDone then r.currentRound + 1 else r.currentRound
      let drawn1 : List String := if cycleDone then [] else drawnF
      if cycleDone ∧ round1 > r.totalRounds then
        let rEnd := { r with
                      currentRound := round1
                      drawnPlayers := []
                      status := RoomStatus.ended
                      roundPhase := none
                      currentDrawerId := none }
        { w1 with room := some rEnd }
      else
        let r2 := { r with
                    currentRound := round1
                    drawnPlayers := drawn1
                    guessedCorrectly := []
                    canvasHistory := []
                    currentWord := none
                    secretWord := none }
        let available := r2.players.filter
          (fun p => !(r2.drawnPlayers.contains p.id))
        if available.isEmpty then
          startNewRoundFuel fuel
            { w1 with room := some { r2 with drawnPlayers := [] } } dRand k1 k2 k3
        else
          let drawer := available.getD (dRand % available.length) dummyPlayer
          let options :=
            [WORDS.getD (k1 % WORDS.length) "", WORDS.getD (k2 % WORDS.length) "",
             WORDS.getD (k3 % WORDS.length) ""]
          let r3 := { r2 with
                      currentDrawerId := some drawer.id
                      drawnPlayers := r2.drawnPlayers ++ [drawer.id]
                      wordsToChoose := options
                      roundPhase := some .selecting }
          scheduleTimer { w1 with room := some r3 } TimerAction.selectionTimeout 5

/-- `startNewRound` as callable: fuel 2 covers the at-most-one defensive
recursion of the original code on rooms with players. -/
def startNewRound (w : World) (dRand k1 k2 k3 : Nat) : World :=
  startNewRoundFuel 2 w dRand k1 k2 k3

/-- Masking in `selectWord`: `word.replace(/[^\s]/g, '_ ')` rewrites each
non-whitespace character to the two-character string underscore-space and
leaves whitespace characters in place. -/
def maskWord (word : String) : String :=
  ⟨word.data.flatMap (fun c => if c.isWhitespace then [c] else ['_', ' '])⟩

/-- `selectWord`: cancels the recorded timer, stores the secret word,
derives the masked public word, enters `drawing`, clears the offered
options, stamps the round start time (`Date.now()` passed as `now`), and
schedules the draw-time interval whose expiry runs `endRound`. -/
def selectWord (w : World) (word : String) (now : Nat) : World :=
  match w.room with
  | none => w
  | some r =>
    let w1 := clearRoomTimer w
    let r1 := { r with
                secretWord := some word
                currentWord := some (maskWord word)
                roundPhase := some .drawing
                wordsToChoose := []
                roundStartTime := some now }
    scheduleTimer { w1 with room := some r1 } TimerAction.drawTimeout r.drawTime

/-- Result shape of `processGuess`: `{ isCorrect: boolean; score?: number }`. -/
structure GuessResult where
  isCorrect : Bool
  score : Option Nat
deriving DecidableEq, Repr

/-- Model of JavaScript `String.prototype.trim`: strip whitespace
characters from both ends (defined over the character list so that it
evaluates inside the kernel). -/
def jsTrim (s : String) : String :=
  ⟨((s.data.dropWhile Char.isWhitespace).reverse.dropWhile Char.isWhitespace).reverse⟩

/-- Model of JavaScript `String.prototype.toUpperCase` on the ASCII
alphabet: uppercase every character. -/
def jsToUpper (s : String) : String :=
  ⟨s.data.map Char.toUpper⟩

/-- State effect of a first-time correct guess in `processGuess`
(lines 328–344 of `roomController.ts`): award 50 to the guesser and 10
to the drawer, record the guesser in `guessedCorrectly`, and end the
turn early when the correct-guesser count has reached the non-drawer
count. -/
def applyCorrectGuess (w : World) (r : ServerRoom) (socketId : String) : World :=
  let players1 := bumpScoreFirst r.players socketId 50
  let players2 := bumpScoreFirstOpt players1 r.currentDrawerId 10
  let guessed1 := r.guessedCorrectly ++ [socketId]
  let r1 := { r with players := players2, guessedCorrectly := guessed1 }
  let w1 := { w with room := some r1 }
  let guessers := players2.filter (fun p => !(some p.id == r.currentDrawerId))
  if guessed1.length ≥ guessers.length then endRound w1 else w1

/-- `processGuess`.  Guards: missing room, falsy secret word (`null` or
the empty string), status other than `playing`, phase other than
`drawing`, or the guesser being the current drawer all reject with no
state change.  A guess matches when `guess.trim().toUpperCase()` equals
`secretWord.toUpperCase()`.  A repeated correct guess returns correct
with no state change; a first correct guess applies
`applyCorrectGuess`. -/
def processGuess (w : World) (socketId guess : String) : World × GuessResult :=
  match w.room with
  | none => (w, ⟨false, none⟩)
  | some r =>
    match r.secretWord with
    | none => (w, ⟨false, none⟩)
    | some sw =>
      if sw = "" ∨ r.status ≠ .playing ∨ r.roundPhase ≠ some .drawing then
        (w, ⟨false, none⟩)
      else if some socketId = r.currentDrawerId then (w, ⟨false, none⟩)
      else if jsToUpper (jsTrim guess) = jsToUpper sw then
        if socketId ∈ r.guessedCorrectly then (w, ⟨true, none⟩)
        else (applyCorrectGuess w r socketId, ⟨true, some 50⟩)
      else (w, ⟨false, none⟩)

/-- Runtime `Partial<Room>` payload of `updateSettings`: every field may
be present or absent.  The payload is raw client JSON; nothing validates
which keys it names, so it ranges over every room field that
`Object.assign` could overwrite (including the server-private
`secretWord`).  Only the non-serializable `timer` handle is out of a
remote payload's reach. -/
structure RoomSettings where
  id : Option String
  players : Option (List Player)
  status : Option RoomStatus
  currentRound : Option Nat
  totalRounds : Option Nat
  drawTime : Option Nat
  currentDrawerId : Option (Option String)
  currentWord : Option (Option String)
  secretWord : Option (Option String)
  wordsToChoose : Option (List String)
  maxPlayers : Option Nat
  hints : Option Nat
  roundPhase : Option (Option RoundPhase)
  roundStartTime : Option (Option Nat)
  guessedCorrectly : Option (List String)
  canvasHistory : Option (List DrawData)
  drawnPlayers : Option (List String)
deriving DecidableEq, Repr

/-- The all-absent settings payload. -/
def emptySettings : RoomSettings :=
  { id := none, players := none, status := none, currentRound := none,
    totalRounds := none, drawTime := none, currentDrawerId := none,
    currentWord := none, secretWord := none, wordsToChoose := none,
    maxPlayers := none, hints := none, roundPhase := none,
    roundStartTime := none, guessedCorrectly := none, canvasHistory := none,
    drawnPlayers := none }

/-- `updateSettings`: the bare `Object.assign(room, settings)` merge —
every key present in the payload overwrites the room field, every absent
key leaves it unchanged, with no phase, caller or range check anywhere
(the socket handler `update_settings` forwards any client's payload
without a host check). -/
def updateSettings (r : ServerRoom) (s : RoomSettings) : ServerRoom :=
  { id := s.id.getD r.id,
    players := s.players.getD r.players,
    status := s.status.getD r.status,
    currentRound := s.currentRound.getD r.currentRound,
    totalRounds := s.totalRounds.getD r.totalRounds,
    drawTime := s.drawTime.getD r.drawTime,
    currentDrawerId := s.currentDrawerId.getD r.currentDrawerId,
    currentWord := s.currentWord.getD r.currentWord,
    secretWord := s.secretWord.getD r.secretWord,
    wordsToChoose := s.wordsToChoose.getD r.wordsToChoose,
    maxPlayers := s.maxPlayers.getD r.maxPlayers,
    hints := s.hints.getD r.hints,
    roundPhase := s.roundPhase.getD r.roundPhase,
    roundStartTime := s.roundStartTime.getD r.roundStartTime,
    guessedCorrectly := s.guessedCorrectly.getD r.guessedCorrectly,
    canvasHistory := s.canvasHistory.getD r.canvasHistory,
    timer := r.timer,
    drawnPlayers := s.drawnPlayers.getD r.drawnPlayers }

/-- `resetToLobby`: cancels the recorded timer, clears all round state,
zeroes every player's score and returns to the lobby. -/
def resetToLobby (w : World) : World :=
  match w.room with
  | none => w
  | some r =>
    let w1 := clearRoomTimer w
    let r1 := { r with
                status := RoomStatus.lobby
                currentRound := 1
                currentDrawerId := none
                currentWord := none
                secretWord := none
                roundPhase := none
                drawnPlayers := []
                guessedCorrectly := []
                canvasHistory := []
                wordsToChoose := []
                players := r.players.map (fun p => { p with score := 0 }) }
    { w1 with room := some r1 }

/-- Expiry of a scheduled task.  A task fires only while it is still in
the live set; each interval's expiry action is the operation the original
callback invokes (intervals are descheduled by the `clearInterval` inside
that operation, whose `room.timer` still holds their handle), and the
one-shot review `setTimeout` removes itself from the live set and then
advances the turn unless the room has ended. -/
def fireTimer (w : World) (t : ScheduledTask) (dRand k1 k2 k3 now : Nat) : World :=
  if w.pending.any (fun u => u.id == t.id) then
    match t.action with
    | .gameCountdown => startNewRound w dRand k1 k2 k3
    | .selectionTimeout =>
      match w.room with
      | none => w
      | some r => selectWord w (r.wordsToChoose.getD 0 "") now
    | .drawTimeout => endRound w
    | .reviewDelay =>
      let w1 := { w with pending := w.pending.filter (fun u => u.id != t.id) }
      match w1.room with
      | none => w1
      | some r =>
        if r.status ≠ .ended then startNewRound w1 dRand k1 k2 k3 else w1
  else w

/-- Number of players flagged as host. -/
def hostCount (ps : List Player) : Nat :=
  ps.countP (fun p => p.isHost)

/-- Score of the first player with the given id, `none` when absent. -/
def scoreOf (ps : List Player) (pid : String) : Option Nat :=
  (ps.find? (fun q => q.id == pid)).map Player.score

/-- Decidable check of the spec invariant `drawnPlayers ⊆ players` (on
ids), vacuously true on a deleted room. -/
def drawnSubsetOK (w : World) : Bool :=
  match w.room with
  | none => true
  | some r => r.drawnPlayers.all (fun pid => r.players.any (fun p => p.id == pid))

/-- Decidable check of the membership invariants of a live room: a
non-empty player list with exactly one host. -/
def roomInvOK (w : World) : Bool :=
  match w.room with
  | none => true
  | some r => decide (0 < r.players.length) && decide (hostCount r.players = 1)

/-- Worlds reachable from a room creation through the session operations
(external commands and timer-expiry callbacks) of `RoomManager`, with the
operations' random inputs arbitrary.  `updateSettings` is deliberately
not a step here: its unchecked `Object.assign` merge can overwrite any
field wholesale and is analyzed separately. -/
inductive Reach : World → Prop
  | create (roomId username avatar socketId : String) (dt rds : Nat) :
      Reach (createRoom roomId username avatar socketId dt rds)
  | join (w : World) (u a s : String) :
      Reach w → Reach (joinRoom w u a s).1
  | leave (w : World) (s : String) (k : Nat) :
      Reach w → Reach (leaveRoom w s k)
  | start (w : World) : Reach w → Reach (startGame w)
  | newRound (w : World) (d k1 k2 k3 : Nat) :
      Reach w → Reach (startNewRound w d k1 k2 k3)
  | select (w : World) (word : String) (now : Nat) :
      Reach w → Reach (selectWord w word now)
  | guess (w : World) (sid g : String) :
      Reach w → Reach (processGuess w sid g).1
  | endR (w : World) : Reach w → Reach (endRound w)
  | reset (w : World) : Reach w → Reach (resetToLobby w)

/-! Structural lemmas about the timer plumbing. -/

theorem clearRoomTimer_room (w : World) : (clearRoomTimer w).room = w.room := by
  obtain ⟨room, pend, nid⟩ := w
  cases room with
  | none => rfl
  | some r =>
    cases ht : r.timer with
    | none => simp [clearRoomTimer, ht]
    | some tid => simp [clearRoomTimer, ht]

theorem clearRoomTimer_nextTaskId (w : World) :
    (clearRoomTimer w).nextTaskId = w.nextTaskId := by
  obtain ⟨room, pend, nid⟩ := w
  cases room with
  | none => rfl
  | some r =>
    cases ht : r.timer with
    | none => simp [clearRoomTimer, ht]
    | some tid => simp [clearRoomTimer, ht]

/-- The room produced by `selectWord` on a live room: the chosen word is
stored, the derived mask published, the phase set to `drawing`, the
options cleared, and the fresh draw-timer handle recorded. -/
theorem selectWord_room (w : World) (r : ServerRoom) (word : String) (now : Nat)
    (h : w.room = some r) :
    (selectWord w word now).room = some
      { r with
        secretWord := some word
        currentWord := some (maskWord word)
        roundPhase := some RoundPhase.drawing
        wordsToChoose := []
        roundStartTime := some now
        timer := some w.nextTaskId } := by
  obtain ⟨room, pend, nid⟩ := w
  cases room with
  | none => cases h
  | some r0 =>
    obtain rfl : r0 = r := by injection h
    cases ht : r0.timer with
    | none => simp [selectWord, clearRoomTimer, scheduleTimer, ht]
    | some tid => simp [selectWord, clearRoomTimer, scheduleTimer, ht]

/-! ### C1 — word masking -/

/-- C1 (counterexample): the claim predicts that selecting `"CAT"` masks
it to `"___"` (one placeholder character per letter, equal length).  In
the code `word.replace(/[^\s]/g, '_ ')` substitutes the two-character
string underscore-space for every letter, so the published mask is
`"_ _ _ "` (length 6), not `"___"`. -/
theorem c1_mask_counterexample :
    maskWord "CAT" = "_ _ _ " ∧ maskWord "CAT" ≠ "___" ∧
    ¬ (maskWord "CAT").length = ("CAT" : String).length ∧
    ((selectWord (createRoom "ROOM01" "Alice" "av" "A" 60 3) "CAT" 0).room.map
        ServerRoom.currentWord) = some (some "_ _ _ ") := by
  refine ⟨rfl, by decide, by decide, ?_⟩
  rw [selectWord_room (createRoom "ROOM01" "Alice" "av" "A" 60 3) _ "CAT" 0 rfl]
  rfl

/-- C1 (amended): selecting a word stores it as the secret word and
publishes the masked word in which every non-whitespace character is
replaced by the two-character placeholder underscore-space and every
whitespace character is preserved; the mask therefore has length
`2·(number of non-whitespace characters) + (number of whitespace
characters)`, and `"CAT"` masks to `"_ _ _ "`. -/
theorem c1_mask_spec (w : World) (r : ServerRoom) (word : String) (now : Nat)
    (h : w.room = some r) :
    ((selectWord w word now).room.map
        (fun r1 => (r1.secretWord, r1.currentWord, r1.roundPhase)))
      = some (some word, some (maskWord word), some RoundPhase.drawing)
    ∧ (maskWord word).length =
        2 * (word.data.filter (fun c => !c.isWhitespace)).length
          + (word.data.filter (fun c => c.isWhitespace)).length
    ∧ maskWord "CAT" = "_ _ _ " := by
  refine ⟨?_, ?_, rfl⟩
  · rw [selectWord_room w r word now h]
    rfl
  · show (String.mk (word.data.flatMap
        (fun c => if c.isWhitespace then [c] else ['_', ' ']))).length = _
    rw [String.length]
    induction word.data with
    | nil => rfl
    | cons c cs ih =>
      by_cases hc : c.isWhitespace
      · simp [hc, List.flatMap_cons, ih]
        omega
      · simp [hc, List.flatMap_cons, ih]
        omega

/-- C1 (witness): the amended masking theorem applied to a concrete
lobby room and the word "ICE CREAM". -/
theorem c1_mask_witness :
    ((selectWord (createRoom "ROOM01" "Alice" "av" "A" 60 3) "ICE CREAM" 7).room.map
        (fun r1 => (r1.secretWord, r1.currentWord, r1.roundPhase)))
      = some (some "ICE CREAM", some (maskWord "ICE CREAM"),
              some RoundPhase.drawing)
    ∧ (maskWord "ICE CREAM").length =
        2 * (("ICE CREAM" : String).data.filter (fun c => !c.isWhitespace)).length
          + (("ICE CREAM" : String).data.filter (fun c => c.isWhitespace)).length
    ∧ maskWord "CAT" = "_ _ _ " :=
  c1_mask_spec (createRoom "ROOM01" "Alice" "av" "A" 60 3) _ "ICE CREAM" 7 rfl

/-! ### C6 — sanitized public view -/

/-- C6: the broadcast view never carries the secret word or the pending
word options: `getPublicRoom` is insensitive to the `secretWord` (and
`timer`) fields — the sanitized shape has no such field — and its
`wordsToChoose` is always the empty list. -/
theorem c6_public_view (r : ServerRoom) (sw : Option String) (t : Option Nat) :
    getPublicRoom { r with secretWord := sw, timer := t } = getPublicRoom r
    ∧ (getPublicRoom r).wordsToChoose = [] :=
  ⟨rfl, rfl⟩

/-! ### C10 — unchecked settings merge -/

/-- C10: `updateSettings` is a bare merge: every key present in the
payload — including `status`, `players`, `currentDrawerId`,
`currentWord` and the server-private `secretWord` — overwrites the
corresponding room field, every absent key leaves its field unchanged,
and nothing about the room (in particular its phase) or the caller is
consulted. -/
theorem c10_updateSettings_merge (r : ServerRoom) (s : RoomSettings) :
    (∀ v, s.id = some v → (updateSettings r s).id = v) ∧
    (s.id = none → (updateSettings r s).id = r.id) ∧
    (∀ v, s.players = some v → (updateSettings r s).players = v) ∧
    (s.players = none → (updateSettings r s).players = r.players) ∧
    (∀ v, s.status = some v → (updateSettings r s).status = v) ∧
    (s.status = none → (updateSettings r s).status = r.status) ∧
    (∀ v, s.currentRound = some v → (updateSettings r s).currentRound = v) ∧
    (s.currentRound = none → (updateSettings r s).currentRound = r.currentRound) ∧
    (∀ v, s.totalRounds = some v → (updateSettings r s).totalRounds = v) ∧
    (s.totalRounds = none → (updateSettings r s).totalRounds = r.totalRounds) ∧
    (∀ v, s.drawTime = some v → (updateSettings r s).drawTime = v) ∧
    (s.drawTime = none → (updateSettings r s).drawTime = r.drawTime) ∧
    (∀ v, s.currentDrawerId = some v → (updateSettings r s).currentDrawerId = v) ∧
    (s.currentDrawerId = none →
      (updateSettings r s).currentDrawerId = r.currentDrawerId) ∧
    (∀ v, s.currentWord = some v → (updateSettings r s).currentWord = v) ∧
    (s.currentWord = none → (updateSettings r s).currentWord = r.currentWord) ∧
    (∀ v, s.secretWord = some v → (updateSettings r s).secretWord = v) ∧
    (s.secretWord = none → (updateSettings r s).secretWord = r.secretWord) ∧
    (∀ v, s.wordsToChoose = some v → (updateSettings r s).wordsToChoose = v) ∧
    (s.wordsToChoose = none →
      (updateSettings r s).wordsToChoose = r.wordsToChoose) ∧
    (∀ v, s.maxPlayers = some v → (updateSettings r s).maxPlayers = v) ∧
    (s.maxPlayers = none → (updateSettings r s).maxPlayers = r.maxPlayers) ∧
    (∀ v, s.hints = some v → (updateSettings r s).hints = v) ∧
    (s.hints = none → (updateSettings r s).hints = r.hints) ∧
    (∀ v, s.roundPhase = some v → (updateSettings r s).roundPhase = v) ∧
    (s.roundPhase = none → (updateSettings r s).roundPhase = r.roundPhase) ∧
    (∀ v, s.roundStartTime = some v → (updateSettings r s).roundStartTime = v) ∧
    (s.roundStartTime = none →
      (updateSettings r s).roundStartTime = r.roundStartTime) ∧
    (∀ v, s.guessedCorrectly = some v → (updateSettings r s).guessedCorrectly = v) ∧
    (s.guessedCorrectly = none →
      (updateSettings r s).guessedCorrectly = r.guessedCorrectly) ∧
    (∀ v, s.canvasHistory = some v → (updateSettings r s).canvasHistory = v) ∧
    (s.canvasHistory = none →
      (updateSettings r s).canvasHistory = r.canvasHistory) ∧
    (∀ v, s.drawnPlayers = some v → (updateSettings r s).drawnPlayers = v) ∧
    (s.drawnPlayers = none → (updateSettings r s).drawnPlayers = r.drawnPlayers) ∧
    (updateSettings r s).timer = r.timer := by
  refine ⟨?_, ?_, ?_, ?_, ?_, ?_, ?_, ?_, ?_, ?_, ?_, ?_, ?_, ?_, ?_, ?_, ?_,
    ?_, ?_, ?_, ?_, ?_, ?_, ?_, ?_, ?_, ?_, ?_, ?_, ?_, ?_, ?_, ?_, ?_, rfl⟩
  all_goals intro h
  all_goals first
    | (intro hv; simp [updateSettings, hv])
    | simp [updateSettings, h]

/-- A mid-game room used as a concrete input for witnesses: two players,
Alice (host) drawing the word "CAT", Bob guessing. -/
def roomDrawing : ServerRoom :=
  { id := "ROOM01",
    players := [{ id := "A", socketId := "A", name := "Alice", score := 0,
                  isHost := true, avatar := "av" },
                { id := "B", socketId := "B", name := "Bob", score := 0,
                  isHost := false, avatar := "av" }],
    status := .playing, currentRound := 1, totalRounds := 3, drawTime := 60,
    currentDrawerId := some "A", currentWord := some (maskWord "CAT"),
    secretWord := some "CAT", wordsToChoose := [], maxPlayers := 8, hints := 2,
    roundPhase := some .drawing, roundStartTime := some 500,
    guessedCorrectly := [], canvasHistory := [], timer := some 2,
    drawnPlayers := ["A"] }

/-- World around `roomDrawing`: the draw timer is the only live task. -/
def wDrawing : World :=
  { room := some roomDrawing,
    pending := [{ id := 2, action := .drawTimeout, duration := 60 }],
    nextTaskId := 3 }

/-- A settings payload (as any client may send over `update_settings`)
that rewrites the secret word and the status mid-game. -/
def hijackSettings : RoomSettings :=
  { emptySettings with
    status := some RoomStatus.ended
    secretWord := some (some "HACK") }

/-- C10 (witness): the merge theorem applied to the mid-game room and the
hijacking payload: named keys are overwritten even while `drawing`, the
unnamed `drawTime` stays. -/
theorem c10_updateSettings_witness :
    (updateSettings roomDrawing hijackSettings).secretWord = some "HACK" ∧
    (updateSettings roomDrawing hijackSettings).status = RoomStatus.ended ∧
    (updateSettings roomDrawing hijackSettings).drawTime = roomDrawing.drawTime := by
  have h := c10_updateSettings_merge roomDrawing hijackSettings
  exact ⟨h.2.2.2.2.2.2.2.2.2.2.2.2.2.2.2.2.1 (some "HACK") rfl,
         h.2.2.2.2.1 RoomStatus.ended rfl,
         h.2.2.2.2.2.2.2.2.2.2.2.1 rfl⟩

/-! ### C3 — drawer guesses and out-of-phase guesses are rejected no-ops -/

/-- C3: a guess by the current drawer is reported not correct and leaves
the world (players' scores, `guessedCorrectly`, everything) unchanged;
and any guess submitted while the round phase is not `drawing` is
likewise reported not correct with no state change. -/
theorem c3_drawer_and_phase_rejected (w : World) (r : ServerRoom)
    (sid g : String) (h : w.room = some r) :
    (r.currentDrawerId = some sid →
      processGuess w sid g = (w, ⟨false, none⟩)) ∧
    (r.roundPhase ≠ some RoundPhase.drawing →
      processGuess w sid g = (w, ⟨false, none⟩)) := by
  obtain ⟨room, pend, nid⟩ := w
  obtain rfl : room = some r := h
  constructor
  · intro hd
    cases hsw : r.secretWord with
    | none => simp [processGuess, hsw]
    | some sw =>
      by_cases hg : sw = "" ∨ r.status ≠ RoomStatus.playing ∨
          r.roundPhase ≠ some RoundPhase.drawing
      · simp [processGuess, hsw, hg]
      · simp [processGuess, hsw, hg, hd]
  · intro hp
    cases hsw : r.secretWord with
    | none => simp [processGuess, hsw]
    | some sw =>
      have hg : sw = "" ∨ r.status ≠ RoomStatus.playing ∨
          r.roundPhase ≠ some RoundPhase.drawing := Or.inr (Or.inr hp)
      simp [processGuess, hsw, hg]

/-- A room in the `review` phase (the word already revealed), for the
out-of-phase half of the C3 witness. -/
def roomReview : ServerRoom :=
  { roomDrawing with
    roundPhase := some RoundPhase.review
    currentWord := some "CAT"
    guessedCorrectly := ["B"] }

/-- C3 (witness): in the concrete drawing-phase room the drawer Alice
guessing her own word changes nothing and is reported not correct; in
the concrete review-phase room Bob's guess is likewise ignored. -/
theorem c3_rejection_witness :
    processGuess wDrawing "A" "CAT" = (wDrawing, ⟨false, none⟩) ∧
    processGuess { wDrawing with room := some roomReview } "B" "CAT"
      = ({ wDrawing with room := some roomReview }, ⟨false, none⟩) :=
  ⟨(c3_drawer_and_phase_rejected wDrawing roomDrawing "A" "CAT" rfl).1 rfl,
   (c3_drawer_and_phase_rejected { wDrawing with room := some roomReview }
      roomReview "B" "CAT" rfl).2 (by decide)⟩

/-! ### C2 — guess matching, scoring and idempotence -/

/-- The room after `endRound` on a live room: the secret word is copied
into the public `currentWord` and the phase becomes `review`; players and
`guessedCorrectly` are untouched. -/
theorem endRound_room (w : World) (r : ServerRoom) (h : w.room = some r) :
    (endRound w).room = some
      { r with currentWord := r.secretWord, roundPhase := some RoundPhase.review } := by
  obtain ⟨room, pend, nid⟩ := w
  obtain rfl : room = some r := h
  cases ht : r.timer with
  | none => simp [endRound, clearRoomTimer, scheduleUntracked, ht]
  | some tid => simp [endRound, clearRoomTimer, scheduleUntracked, ht]

theorem scoreOf_bumpScoreFirst_same (ps : List Player) (pid : String) (n : Nat) :
    scoreOf (bumpScoreFirst ps pid n) pid = (scoreOf ps pid).map (· + n) := by
  induction ps with
  | nil => rfl
  | cons p rest ih =>
    by_cases hp : p.id = pid
    · simp only [bumpScoreFirst, if_pos hp, scoreOf]
      rw [List.find?_cons_of_pos _ (by simp [hp]),
        List.find?_cons_of_pos _ (by simp [hp])]
      rfl
    · simp only [bumpScoreFirst, if_neg hp, scoreOf]
      rw [List.find?_cons_of_neg _ (by simp [hp]),
        List.find?_cons_of_neg _ (by simp [hp])]
      exact ih

theorem scoreOf_bumpScoreFirst_ne (ps : List Player) (pid q : String) (n : Nat)
    (hq : q ≠ pid) :
    scoreOf (bumpScoreFirst ps pid n) q = scoreOf ps q := by
  induction ps with
  | nil => rfl
  | cons p rest ih =>
    by_cases hp : p.id = pid
    · have hpq : ¬ p.id = q := by
        rw [hp]
        exact fun hh => hq hh.symm
      simp only [bumpScoreFirst, if_pos hp, scoreOf]
      rw [List.find?_cons_of_neg _ (by simp [hpq]),
        List.find?_cons_of_neg _ (by simp [hpq])]
    · by_cases hpq : p.id = q
      · simp only [bumpScoreFirst, if_neg hp, scoreOf]
        rw [List.find?_cons_of_pos _ (by simp [hpq]),
          List.find?_cons_of_pos _ (by simp [hpq])]
      · simp only [bumpScoreFirst, if_neg hp, scoreOf]
        rw [List.find?_cons_of_neg _ (by simp [hpq]),
          List.find?_cons_of_neg _ (by simp [hpq])]
        exact ih

/-- Reduction of `processGuess` on a first-time correct guess in a valid
drawing-phase state. -/
theorem processGuess_correct_new (w : World) (r : ServerRoom) (sw sid g : String)
    (h : w.room = some r) (hsw : r.secretWord = some sw) (hne : sw ≠ "")
    (hst : r.status = RoomStatus.playing)
    (hph : r.roundPhase = some RoundPhase.drawing)
    (hnd : ¬ some sid = r.currentDrawerId)
    (hm : jsToUpper (jsTrim g) = jsToUpper sw) (hnew : sid ∉ r.guessedCorrectly) :
    processGuess w sid g = (applyCorrectGuess w r sid, ⟨true, some 50⟩) := by
  obtain ⟨room, pend, nid⟩ := w
  obtain rfl : room = some r := h
  have hg : ¬ (sw = "" ∨ r.status ≠ RoomStatus.playing ∨
      r.roundPhase ≠ some RoundPhase.drawing) := by
    push_neg
    exact ⟨hne, hst, hph⟩
  simp [processGuess, hsw, hg, hnd, hm, hnew]

/-- Room-level effect of `applyCorrectGuess`: whether or not the early
`endRound` fires, the resulting room records the guesser in
`guessedCorrectly` and carries the twice-bumped player list. -/
theorem applyCorrectGuess_room (w : World) (r : ServerRoom) (sid : String) :
    ((applyCorrectGuess w r sid).room.map
        (fun r1 => (r1.players, r1.guessedCorrectly)))
      = some (bumpScoreFirstOpt (bumpScoreFirst r.players sid 50)
                r.currentDrawerId 10,
              r.guessedCorrectly ++ [sid]) := by
  simp only [applyCorrectGuess]
  split
  · rw [endRound_room _ _ rfl]
    rfl
  · rfl

/-- C2: in a valid drawing-phase state with a non-drawer guesser, a guess
is reported correct iff it equals the secret word case-insensitively
after trimming; the first correct guess appends the guesser to
`guessedCorrectly`, adds exactly 50 to the guesser's score and exactly
10 to the drawer's score; a repeated correct guess changes nothing at
all but is still reported correct. -/
theorem c2_guess_scoring (w : World) (r : ServerRoom) (sw sid did g : String)
    (h : w.room = some r) (hsw : r.secretWord = some sw) (hne : sw ≠ "")
    (hst : r.status = RoomStatus.playing)
    (hph : r.roundPhase = some RoundPhase.drawing)
    (hdid : r.currentDrawerId = some did) (hnd : sid ≠ did) :
    ((processGuess w sid g).2.isCorrect = true ↔ jsToUpper (jsTrim g) = jsToUpper sw)
    ∧ (jsToUpper (jsTrim g) = jsToUpper sw → sid ∉ r.guessedCorrectly →
        ((processGuess w sid g).1.room.map ServerRoom.guessedCorrectly)
          = some (r.guessedCorrectly ++ [sid])
        ∧ ((processGuess w sid g).1.room.map (fun r1 => scoreOf r1.players sid))
          = some ((scoreOf r.players sid).map (· + 50))
        ∧ ((processGuess w sid g).1.room.map (fun r1 => scoreOf r1.players did))
          = some ((scoreOf r.players did).map (· + 10))
        ∧ (processGuess w sid g).2 = ⟨true, some 50⟩)
    ∧ (jsToUpper (jsTrim g) = jsToUpper sw → sid ∈ r.guessedCorrectly →
        processGuess w sid g = (w, ⟨true, none⟩)) := by
  have hnd2 : ¬ some sid = r.currentDrawerId := by
    rw [hdid]
    intro hh
    exact hnd (Option.some_injective _ hh)
  have hg : ¬ (sw = "" ∨ r.status ≠ RoomStatus.playing ∨
      r.roundPhase ≠ some RoundPhase.drawing) := by
    push_neg
    exact ⟨hne, hst, hph⟩
  refine ⟨?_, ?_, ?_⟩
  · by_cases hm : jsToUpper (jsTrim g) = jsToUpper sw
    · by_cases hnew : sid ∈ r.guessedCorrectly
      · obtain ⟨room, pend, nid⟩ := w
        obtain rfl : room = some r := h
        simp [processGuess, hsw, hg, hnd2, hm, hnew]
      · rw [processGuess_correct_new w r sw sid g h hsw hne hst hph hnd2 hm hnew]
        simp [hm]
    · obtain ⟨room, pend, nid⟩ := w
      obtain rfl : room = some r := h
      simp [processGuess, hsw, hg, hnd2, hm]
  · intro hm hnew
    rw [processGuess_correct_new w r sw sid g h hsw hne hst hph hnd2 hm hnew]
    have hroom := applyCorrectGuess_room w r sid
    cases hx : (applyCorrectGuess w r sid).room with
    | none => rw [hx] at hroom; cases hroom
    | some rx =>
      rw [hx] at hroom
      simp only [Option.map_some', Option.some.injEq, Prod.mk.injEq] at hroom
      obtain ⟨hpl, hgc⟩ := hroom
      refine ⟨?_, ?_, ?_, rfl⟩
      · simp [hx, hgc]
      · simp only [hx, Option.map_some', Option.some.injEq]
        rw [hpl, hdid, bumpScoreFirstOpt,
          scoreOf_bumpScoreFirst_ne _ did sid 10 hnd,
          scoreOf_bumpScoreFirst_same]
      · simp only [hx, Option.map_some', Option.some.injEq]
        rw [hpl, hdid, bumpScoreFirstOpt,
          scoreOf_bumpScoreFirst_same,
          scoreOf_bumpScoreFirst_ne _ sid did 50 (fun hh2 => hnd hh2.symm)]
  · intro hm hold
    obtain ⟨room, pend, nid⟩ := w
    obtain rfl : room = some r := h
    simp [processGuess, hsw, hg, hnd2, hm, hold]

/-- C2 (witness): Bob submits " cat" (lower case, leading space) while
Alice draws "CAT": it is reported correct, Bob gains exactly 50, Alice
gains exactly 10, and Bob is recorded in `guessedCorrectly`. -/
theorem c2_guess_scoring_witness :
    ((processGuess wDrawing "B" " cat").2.isCorrect = true ↔
        jsToUpper (jsTrim " cat") = jsToUpper "CAT")
    ∧ (jsToUpper (jsTrim " cat") = jsToUpper "CAT" →
        "B" ∉ roomDrawing.guessedCorrectly →
        ((processGuess wDrawing "B" " cat").1.room.map ServerRoom.guessedCorrectly)
          = some (roomDrawing.guessedCorrectly ++ ["B"])
        ∧ ((processGuess wDrawing "B" " cat").1.room.map
            (fun r1 => scoreOf r1.players "B"))
          = some ((scoreOf roomDrawing.players "B").map (· + 50))
        ∧ ((processGuess wDrawing "B" " cat").1.room.map
            (fun r1 => scoreOf r1.players "A"))
          = some ((scoreOf roomDrawing.players "A").map (· + 10))
        ∧ (processGuess wDrawing "B" " cat").2 = ⟨true, some 50⟩)
    ∧ (jsToUpper (jsTrim " cat") = jsToUpper "CAT" →
        "B" ∈ roomDrawing.guessedCorrectly →
        processGuess wDrawing "B" " cat" = (wDrawing, ⟨true, none⟩)) :=
  c2_guess_scoring wDrawing roomDrawing "CAT" "B" "A" " cat" rfl rfl
    (by decide) rfl rfl rfl (by decide)

/-! ### C4 — early turn end once every non-drawer has guessed -/

theorem map_id_bumpScoreFirst (ps : List Player) (pid : String) (n : Nat) :
    (bumpScoreFirst ps pid n).map Player.id = ps.map Player.id := by
  induction ps with
  | nil => rfl
  | cons p rest ih =>
    by_cases hp : p.id = pid
    · simp [bumpScoreFirst, hp]
    · simp [bumpScoreFirst, hp, ih]

theorem map_id_bumpScoreFirstOpt (ps : List Player) (d : Option String) (n : Nat) :
    (bumpScoreFirstOpt ps d n).map Player.id = ps.map Player.id := by
  cases d with
  | none => rfl
  | some pid => exact map_id_bumpScoreFirst ps pid n

/-- The ids of the non-drawer players are the id-list filtered by the
same test (`p.id !== currentDrawerId` only looks at the id). -/
theorem guessers_map_id (ps : List Player) (d : Option String) :
    (ps.filter (fun p => !(some p.id == d))).map Player.id
      = (ps.map Player.id).filter (fun i => !(some i == d)) := by
  induction ps with
  | nil => rfl
  | cons p rest ih =>
    by_cases hp : (!(some p.id == d)) = true
    · simp [List.filter_cons, hp, ih]
    · simp [List.filter_cons, hp, ih]

/-- Effect of `applyCorrectGuess` when, after recording the guesser,
`guessedCorrectly` covers every non-drawer player: the early `endRound`
fires, so the phase becomes `review` and the secret word is published. -/
theorem applyCorrectGuess_covers (w : World) (r : ServerRoom) (sid : String)
    (hnodupIds : (r.players.map Player.id).Nodup)
    (hcover : ∀ p ∈ r.players, ¬ (some p.id = r.currentDrawerId) →
      p.id ∈ r.guessedCorrectly ++ [sid]) :
    ((applyCorrectGuess w r sid).room.map
        (fun r1 => (r1.roundPhase, r1.currentWord)))
      = some (some RoundPhase.review, r.secretWord) := by
  have hguessersIds :
      ((bumpScoreFirstOpt (bumpScoreFirst r.players sid 50)
          r.currentDrawerId 10).filter
        (fun p => !(some p.id == r.currentDrawerId))).map Player.id
      = (r.players.map Player.id).filter
          (fun i => !(some i == r.currentDrawerId)) := by
    rw [guessers_map_id, map_id_bumpScoreFirstOpt, map_id_bumpScoreFirst]
  have hsub : ((r.players.map Player.id).filter
      (fun i => !(some i == r.currentDrawerId)))
      ⊆ r.guessedCorrectly ++ [sid] := by
    intro i hi
    obtain ⟨hmem, hpred⟩ := List.mem_filter.mp hi
    obtain ⟨p, hp, hpi⟩ := List.mem_map.mp hmem
    have hpd : ¬ (some p.id = r.currentDrawerId) := by
      rw [hpi]
      simpa using hpred
    have := hcover p hp hpd
    rwa [hpi] at this
  have hnd3 : ((r.players.map Player.id).filter
      (fun i => !(some i == r.currentDrawerId))).Nodup :=
    List.Nodup.filter _ hnodupIds
  have hle := (List.subperm_of_subset hnd3 hsub).length_le
  have hcond : (r.guessedCorrectly ++ [sid]).length ≥
      ((bumpScoreFirstOpt (bumpScoreFirst r.players sid 50)
          r.currentDrawerId 10).filter
        (fun p => !(some p.id == r.currentDrawerId))).length := by
    have hlen : ((bumpScoreFirstOpt (bumpScoreFirst r.players sid 50)
          r.currentDrawerId 10).filter
        (fun p => !(some p.id == r.currentDrawerId))).length
        = ((r.players.map Player.id).filter
            (fun i => !(some i == r.currentDrawerId))).length := by
      rw [← hguessersIds, List.length_map]
    rw [hlen]
    exact hle
  simp only [applyCorrectGuess]
  rw [if_pos hcond, endRound_room _ _ rfl]
  rfl

/-- C4: in a valid drawing-phase state, when a first-time correct guess
makes `guessedCorrectly` cover every non-drawer player currently in the
room, the same `processGuess` step ends the turn at once: the phase
becomes `review` and the secret word is revealed into the public
`currentWord`, without waiting for the draw timer. -/
theorem c4_all_guessed_ends_turn (w : World) (r : ServerRoom) (sw sid g : String)
    (h : w.room = some r) (hsw : r.secretWord = some sw) (hne : sw ≠ "")
    (hst : r.status = RoomStatus.playing)
    (hph : r.roundPhase = some RoundPhase.drawing)
    (hnd : ¬ some sid = r.currentDrawerId)
    (hm : jsToUpper (jsTrim g) = jsToUpper sw) (hnew : sid ∉ r.guessedCorrectly)
    (hnodupIds : (r.players.map Player.id).Nodup)
    (hcover : ∀ p ∈ r.players, ¬ (some p.id = r.currentDrawerId) →
      p.id ∈ r.guessedCorrectly ++ [sid]) :
    ((processGuess w sid g).1.room.map
        (fun r1 => (r1.roundPhase, r1.currentWord)))
      = some (some RoundPhase.review, some sw) := by
  rw [processGuess_correct_new w r sw sid g h hsw hne hst hph hnd hm hnew]
  rw [show (applyCorrectGuess w r sid, (⟨true, some 50⟩ : GuessResult)).1
      = applyCorrectGuess w r sid from rfl]
  rw [applyCorrectGuess_covers w r sid hnodupIds hcover, hsw]

/-- C4 (witness): Bob is the sole non-drawer; his correct guess " cat"
immediately flips the concrete room to `review` with "CAT" revealed. -/
theorem c4_all_guessed_witness :
    ((processGuess wDrawing "B" " cat").1.room.map
        (fun r1 => (r1.roundPhase, r1.currentWord)))
      = some (some RoundPhase.review, some "CAT") :=
  c4_all_guessed_ends_turn wDrawing roomDrawing "CAT" "B" " cat" rfl rfl
    (by decide) rfl rfl (by decide) (by decide) (by decide) (by decide)
    (by decide)

/-! ### C8 — starting a game -/

/-- The room right after `startGame`: status `playing`, round counter 1,
`drawnPlayers` cleared, phase `starting`, fresh countdown handle
recorded — and every other field, `guessedCorrectly` included,
untouched. -/
theorem startGame_room (w : World) (r : ServerRoom) (h : w.room = some r) :
    (startGame w).room = some
      { r with
        status := RoomStatus.playing
        currentRound := 1
        drawnPlayers := []
        roundPhase := some RoundPhase.starting
        timer := some w.nextTaskId } := by
  obtain ⟨room, pend, nid⟩ := w
  obtain rfl : room = some r := h
  cases ht : r.timer with
  | none => simp [startGame, clearRoomTimer, scheduleTimer, ht]
  | some tid => simp [startGame, clearRoomTimer, scheduleTimer, ht]

theorem startGame_pending (w : World) (r : ServerRoom) (h : w.room = some r) :
    (startGame w).pending = (clearRoomTimer w).pending ++
      [⟨w.nextTaskId, TimerAction.gameCountdown, 3⟩] := by
  obtain ⟨room, pend, nid⟩ := w
  obtain rfl : room = some r := h
  cases ht : r.timer with
  | none => simp [startGame, clearRoomTimer, scheduleTimer, ht]
  | some tid => simp [startGame, clearRoomTimer, scheduleTimer, ht]

/-- C8 (amended): starting the game resets the round counter to 1,
clears the drawn-players set, enters the `starting` phase, and schedules
(after cancelling the previously recorded timer) the 3-second countdown
whose expiry runs the first turn advance (`startNewRound`); the
guessed-correctly set is left unchanged by `startGame` itself (it is
cleared later by the turn advance). -/
theorem c8_startGame (w : World) (r : ServerRoom) (h : w.room = some r)
    (d k1 k2 k3 now : Nat) :
    ((startGame w).room.map (fun r1 =>
        (r1.status, r1.currentRound, r1.drawnPlayers, r1.roundPhase,
         r1.guessedCorrectly)))
      = some (RoomStatus.playing, 1, [], some RoundPhase.starting,
              r.guessedCorrectly)
    ∧ (startGame w).pending = (clearRoomTimer w).pending ++
        [⟨w.nextTaskId, TimerAction.gameCountdown, 3⟩]
    ∧ fireTimer (startGame w) ⟨w.nextTaskId, TimerAction.gameCountdown, 3⟩
        d k1 k2 k3 now
      = startNewRound (startGame w) d k1 k2 k3 := by
  refine ⟨?_, startGame_pending w r h, ?_⟩
  · rw [startGame_room w r h]
    rfl
  · have hany : ((startGame w).pending.any
        (fun u => u.id == w.nextTaskId)) = true := by
      rw [startGame_pending w r h]
      simp
    simp [fireTimer, hany]

/-- A complete two-player game driven to its `ended` state: Alice hosts
with `totalRounds = 1`, Bob joins, both take a drawing turn, each turn
ends early by the other player's correct guess, and the final
`startNewRound` ends the session — at which point `guessedCorrectly`
still holds Alice's final-turn guess, because the `ended` early-return
of `startNewRound` happens before turn state is reset.  The last step
restarts the game from this `ended` state. -/
def traceC8 : World :=
  let t0 := createRoom "R3" "Alice" "av" "A" 60 1
  let t1 := (joinRoom t0 "Bob" "av" "B").1
  let t2 := startGame t1
  let t3 := startNewRound t2 0 0 0 0
  let t4 := selectWord t3 "CAT" 500
  let t5 := (processGuess t4 "B" " cat").1
  let t6 := startNewRound t5 0 1 1 1
  let t7 := selectWord t6 "DOG" 600
  let t8 := (processGuess t7 "A" "dog").1
  let t9 := startNewRound t8 0 0 0 0
  startGame t9

/-- C8 (counterexample): the claim says `startGame` clears the
guessed-correctly set.  In the reachable world `traceC8`, the game was
restarted from `ended`: the new game sits in the `starting` phase with
round counter 1, yet `guessedCorrectly` still contains "A" from the
previous game — `startGame` never clears it. -/
theorem c8_startGame_counterexample :
    Reach traceC8 ∧
    (traceC8.room.map (fun r =>
        (r.status, r.currentRound, r.roundPhase, r.guessedCorrectly)))
      = some (RoomStatus.playing, 1, some RoundPhase.starting, ["A"]) ∧
    ¬ (traceC8.room.map ServerRoom.guessedCorrectly) = some [] := by
  refine ⟨?_, by decide, by decide⟩
  exact Reach.start _ (Reach.newRound _ 0 0 0 0 (Reach.guess _ "A" "dog"
    (Reach.select _ "DOG" 600 (Reach.newRound _ 0 1 1 1
      (Reach.guess _ "B" " cat" (Reach.select _ "CAT" 500
        (Reach.newRound _ 0 0 0 0 (Reach.start _
          (Reach.join _ "Bob" "av" "B"
            (Reach.create "R3" "Alice" "av" "A" 60 1))))))))))

/-- C8 (witness): the amended start-game theorem applied to the concrete
mid-game room (restart during `drawing`). -/
theorem c8_startGame_witness :
    ((startGame wDrawing).room.map (fun r1 =>
        (r1.status, r1.currentRound, r1.drawnPlayers, r1.roundPhase,
         r1.guessedCorrectly)))
      = some (RoomStatus.playing, 1, [], some RoundPhase.starting,
              roomDrawing.guessedCorrectly)
    ∧ (startGame wDrawing).pending = (clearRoomTimer wDrawing).pending ++
        [⟨wDrawing.nextTaskId, TimerAction.gameCountdown, 3⟩]
    ∧ fireTimer (startGame wDrawing)
        ⟨wDrawing.nextTaskId, TimerAction.gameCountdown, 3⟩ 0 1 2 3 9
      = startNewRound (startGame wDrawing) 0 1 2 3 :=
  c8_startGame wDrawing roomDrawing rfl 0 1 2 3 9

/-! ### C5 — drawn-players bookkeeping at turn advance -/

theorem list_getD_mem {α : Type} (l : List α) (n : Nat) (d : α)
    (h : n < l.length) : l.getD n d ∈ l := by
  induction l generalizing n with
  | nil => simp at h
  | cons a t ih =>
    cases n with
    | zero => simp
    | succ m =>
      simp only [List.getD_cons_succ]
      exact List.mem_cons_of_mem _ (ih m (by simpa using h))

theorem any_id_of_mem (ps : List Player) (p : Player) (hp : p ∈ ps) :
    ps.any (fun q => q.id == p.id) = true :=
  List.any_eq_true.mpr ⟨p, hp, by simp⟩

/-- C5 (amended): `leaveRoom` does not purge the departed player's id
from `drawnPlayers`, so the subset invariant can break between turns
(see the counterexample); it is `startNewRound` that first filters
`drawnPlayers` down to the current players.  Whenever the turn advance
runs in a playing room whose `drawnPlayers` covers the whole player
list, it increments the round counter and clears `drawnPlayers` (the
continuing branch then seeds it with just the new drawer, an id of a
current player, so the subset invariant holds after the advance), and it
transitions the session to `ended` — scheduling no new timer — exactly
when the incremented round exceeds `totalRounds`. -/
theorem c5_turn_advance (w : World) (r : ServerRoom) (dR k1 k2 k3 : Nat)
    (h : w.room = some r) (hne : r.players ≠ [])
    (hst : r.status = RoomStatus.playing)
    (hnodupIds : (r.players.map Player.id).Nodup)
    (hcover : ∀ p ∈ r.players, p.id ∈ r.drawnPlayers) :
    (r.currentRound + 1 > r.totalRounds →
      ((startNewRound w dR k1 k2 k3).room.map (fun r1 =>
          (r1.currentRound, r1.status, r1.roundPhase, r1.drawnPlayers)))
        = some (r.currentRound + 1, RoomStatus.ended, none, [])
      ∧ (startNewRound w dR k1 k2 k3).nextTaskId = w.nextTaskId
      ∧ drawnSubsetOK (startNewRound w dR k1 k2 k3) = true)
    ∧ (¬ r.currentRound + 1 > r.totalRounds →
      ((startNewRound w dR k1 k2 k3).room.map (fun r1 =>
          (r1.currentRound, r1.status, r1.guessedCorrectly,
           r1.drawnPlayers.length)))
        = some (r.currentRound + 1, RoomStatus.playing, [], 1)
      ∧ drawnSubsetOK (startNewRound w dR k1 k2 k3) = true) := by
  obtain ⟨room, pend, nid⟩ := w
  obtain rfl : room = some r := h
  have hsubA : (r.players.map Player.id) ⊆
      r.drawnPlayers.filter (fun pid => (r.players.map Player.id).contains pid) := by
    intro i hi
    obtain ⟨p, hp, rfl⟩ := List.mem_map.mp hi
    exact List.mem_filter.mpr ⟨hcover p hp, by simpa using hi⟩
  have hcd : (r.drawnPlayers.filter
      (fun pid => (r.players.map Player.id).contains pid)).length
      ≥ r.players.length := by
    have hle := (List.subperm_of_subset hnodupIds hsubA).length_le
    simpa using hle
  have havail : r.players.filter
      (fun p => !(List.contains ([] : List String) p.id)) = r.players := by
    simp [List.contains]
  have hdrawerMem :
      r.players.getD (dR % r.players.length) dummyPlayer ∈ r.players :=
    list_getD_mem r.players (dR % r.players.length) dummyPlayer
      (Nat.mod_lt dR (List.length_pos.mpr hne))
  constructor
  · intro hgt
    have hdone : (r.drawnPlayers.filter
        (fun pid => (r.players.map Player.id).contains pid)).length
        ≥ r.players.length
        ∧ (if (r.drawnPlayers.filter
              (fun pid => (r.players.map Player.id).contains pid)).length
              ≥ r.players.length
           then r.currentRound + 1 else r.currentRound) > r.totalRounds := by
      refine ⟨hcd, ?_⟩
      rw [if_pos hcd]
      exact hgt
    simp only [startNewRound, startNewRoundFuel, if_pos hdone]
    refine ⟨?_, ?_, ?_⟩
    · rw [show (if (r.drawnPlayers.filter
          (fun pid => (r.players.map Player.id).contains pid)).length
          ≥ r.players.length
          then r.currentRound + 1 else r.currentRound) = r.currentRound + 1
        from if_pos hcd]
      rfl
    · exact clearRoomTimer_nextTaskId _
    · rfl
  · intro hgt
    have hnotdone : ¬ ((r.drawnPlayers.filter
        (fun pid => (r.players.map Player.id).contains pid)).length
        ≥ r.players.length
        ∧ (if (r.drawnPlayers.filter
              (fun pid => (r.players.map Player.id).contains pid)).length
              ≥ r.players.length
           then r.currentRound + 1 else r.currentRound) > r.totalRounds) := by
      intro hh
      rw [if_pos hcd] at hh
      exact hgt hh.2
    simp only [startNewRound, startNewRoundFuel, if_neg hnotdone]
    simp only [if_pos hcd, havail]
    have hnonempty : r.players.isEmpty = false := by
      cases hp : r.players with
      | nil => exact absurd hp hne
      | cons a t => rfl
    simp only [hnonempty, Bool.false_eq_true, if_false]
    constructor
    · simp [scheduleTimer, hst]
    · simp [drawnSubsetOK, scheduleTimer]
      refine ⟨_, hdrawerMem, ?_⟩
      rw [List.getD_eq_getElem?_getD]

/-- The game state of `traceC8` after Alice's first turn began: reused
as the base for the C5 counterexample in which the current drawer and
host Alice then disconnects. -/
def traceC5 : World :=
  let t0 := createRoom "ROOM01" "Alice" "av" "A" 60 3
  let t1 := (joinRoom t0 "Bob" "av" "B").1
  let t2 := startGame t1
  let t3 := startNewRound t2 0 0 1 2
  leaveRoom t3 "A" 0

/-- C5 (counterexample): the claim says `drawnPlayers` is a subset of
the current players in every reachable state.  In the reachable world
`traceC5` — Alice drew first and then left — `drawnPlayers` is still
`["A"]` while the only remaining player is Bob, so the subset invariant
is violated. -/
theorem c5_drawn_subset_counterexample :
    Reach traceC5 ∧ drawnSubsetOK traceC5 = false ∧
    (traceC5.room.map (fun r => (r.drawnPlayers, r.players.map Player.id)))
      = some (["A"], ["B"]) := by
  refine ⟨?_, by decide, by decide⟩
  exact Reach.leave _ "A" 0 (Reach.newRound _ 0 0 1 2 (Reach.start _
    (Reach.join _ "Bob" "av" "B"
      (Reach.create "ROOM01" "Alice" "av" "A" 60 3))))

/-- Mid-game room in which both players have already drawn this round:
the next turn advance must increment the round. -/
def roomCycleDone : ServerRoom :=
  { roomDrawing with
    roundPhase := some RoundPhase.review
    currentWord := some "CAT"
    drawnPlayers := ["A", "B"] }

/-- World around `roomCycleDone` with no live timers. -/
def wCycleDone : World :=
  { room := some roomCycleDone, pending := [], nextTaskId := 5 }

/-- C5 (witness): the amended turn-advance theorem applied to the
concrete round-complete room (round 1 of 3, so the game continues). -/
theorem c5_turn_advance_witness :
    (roomCycleDone.currentRound + 1 > roomCycleDone.totalRounds →
      ((startNewRound wCycleDone 1 0 0 0).room.map (fun r1 =>
          (r1.currentRound, r1.status, r1.roundPhase, r1.drawnPlayers)))
        = some (roomCycleDone.currentRound + 1, RoomStatus.ended, none, [])
      ∧ (startNewRound wCycleDone 1 0 0 0).nextTaskId = wCycleDone.nextTaskId
      ∧ drawnSubsetOK (startNewRound wCycleDone 1 0 0 0) = true)
    ∧ (¬ roomCycleDone.currentRound + 1 > roomCycleDone.totalRounds →
      ((startNewRound wCycleDone 1 0 0 0).room.map (fun r1 =>
          (r1.currentRound, r1.status, r1.guessedCorrectly,
           r1.drawnPlayers.length)))
        = some (roomCycleDone.currentRound + 1, RoomStatus.playing, [], 1)
      ∧ drawnSubsetOK (startNewRound wCycleDone 1 0 0 0) = true) :=
  c5_turn_advance wCycleDone roomCycleDone 1 0 0 0 rfl (by decide) rfl
    (by decide) (by decide)

/-! ### C7 — timer cancellation discipline -/

theorem all_of_all_filter {α : Type} (l : List α) (P Q : α → Bool)
    (h : l.all P = true) : (l.filter Q).all P = true := by
  simp only [List.all_eq_true] at h ⊢
  intro t ht
  exact h t (List.mem_filter.mp ht).1

theorem clearRoomTimer_pending_all (w : World) (P : ScheduledTask → Bool)
    (h : w.pending.all P = true) : (clearRoomTimer w).pending.all P = true := by
  obtain ⟨room, pend, nid⟩ := w
  cases room with
  | none => exact h
  | some r =>
    cases ht : r.timer with
    | none => simpa [clearRoomTimer, ht] using h
    | some tid =>
      simp only [clearRoomTimer, ht]
      exact all_of_all_filter pend P _ h

/-- After `clearInterval(room.timer)` no live task carries the recorded
handle. -/
theorem pending_clear_all (w : World) (r : ServerRoom) (tid : Nat)
    (h : w.room = some r) (ht : r.timer = some tid) :
    (clearRoomTimer w).pending.all (fun u => u.id != tid) = true := by
  obtain ⟨room, pend, nid⟩ := w
  obtain rfl : room = some r := h
  simp only [clearRoomTimer, ht]
  simp only [List.all_eq_true]
  intro t htm
  exact (List.mem_filter.mp htm).2

theorem selectWord_pending (w : World) (r : ServerRoom) (word : String)
    (now : Nat) (h : w.room = some r) :
    (selectWord w word now).pending = (clearRoomTimer w).pending ++
      [⟨w.nextTaskId, TimerAction.drawTimeout, r.drawTime⟩] := by
  obtain ⟨room, pend, nid⟩ := w
  obtain rfl : room = some r := h
  cases ht : r.timer with
  | none => simp [selectWord, clearRoomTimer, scheduleTimer, ht]
  | some tid => simp [selectWord, clearRoomTimer, scheduleTimer, ht]

theorem endRound_pending (w : World) (r : ServerRoom) (h : w.room = some r) :
    (endRound w).pending = (clearRoomTimer w).pending ++
      [⟨w.nextTaskId, TimerAction.reviewDelay, 5⟩] := by
  obtain ⟨room, pend, nid⟩ := w
  obtain rfl : room = some r := h
  cases ht : r.timer with
  | none => simp [endRound, clearRoomTimer, scheduleUntracked, ht]
  | some tid => simp [endRound, clearRoomTimer, scheduleUntracked, ht]

theorem resetToLobby_pending (w : World) (r : ServerRoom) (h : w.room = some r) :
    (resetToLobby w).pending = (clearRoomTimer w).pending := by
  obtain ⟨room, pend, nid⟩ := w
  obtain rfl : room = some r := h
  cases ht : r.timer with
  | none => simp [resetToLobby, clearRoomTimer, ht]
  | some tid => simp [resetToLobby, clearRoomTimer, ht]

theorem startNewRoundFuel_pending_all (fuel : Nat) (w : World)
    (d k1 k2 k3 tid : Nat)
    (hp : w.pending.all (fun u => u.id != tid) = true)
    (hf : tid < w.nextTaskId) :
    (startNewRoundFuel fuel w d k1 k2 k3).pending.all
      (fun u => u.id != tid) = true := by
  induction fuel generalizing w with
  | zero => exact hp
  | succ n ih =>
    obtain ⟨room, pend, nid⟩ := w
    dsimp only at hp hf
    cases room with
    | none => exact hp
    | some r =>
      simp only [startNewRoundFuel]
      repeat' split
      all_goals first
        | exact clearRoomTimer_pending_all _ _ hp
        | (apply ih
           · exact clearRoomTimer_pending_all _ _ hp
           · simpa [clearRoomTimer_nextTaskId] using hf)
        | (simp only [scheduleTimer, List.all_append, Bool.and_eq_true]
           refine ⟨clearRoomTimer_pending_all _ _ hp, ?_⟩
           simp only [List.all_cons, List.all_nil, Bool.and_true,
             clearRoomTimer_nextTaskId]
           simp only [bne_iff_ne, ne_eq, decide_eq_true_eq]
           omega)

/-- At turn advance the previously recorded timer handle is cancelled:
no resulting live task carries it. -/
theorem startNewRound_cancels (w : World) (r : ServerRoom)
    (tid d k1 k2 k3 : Nat) (h : w.room = some r) (ht : r.timer = some tid)
    (hf : tid < w.nextTaskId) :
    (startNewRound w d k1 k2 k3).pending.all (fun u => u.id != tid) = true := by
  obtain ⟨room, pend, nid⟩ := w
  obtain rfl : room = some r := h
  dsimp only at hf
  have hclear := pending_clear_all ⟨some r, pend, nid⟩ r tid rfl ht
  simp only [startNewRound, startNewRoundFuel]
  repeat' split
  all_goals first
    | exact hclear
    | exact clearRoomTimer_pending_all _ _ hclear
    | (simp only [scheduleTimer, List.all_append, Bool.and_eq_true]
       refine ⟨?_, ?_⟩
       · first
         | exact hclear
         | exact clearRoomTimer_pending_all _ _ hclear
       · simp only [List.all_cons, List.all_nil, Bool.and_true,
           clearRoomTimer_nextTaskId]
         simp only [bne_iff_ne, ne_eq, decide_eq_true_eq]
         omega)

/-- C7 (amended): each of `startGame`, `startNewRound`, `selectWord` and
`endRound` cancels the timer recorded in `room.timer` before scheduling
its own countdown (and `resetToLobby`, as well as room deletion when the
last player leaves, also cancels the recorded timer) — no live task
carries the previously recorded handle afterward — and a task that is no
longer live never fires.  The end-of-turn review delay, however, is an
untracked `setTimeout` outside `room.timer` (see the counterexample: two
live timers for the same room). -/
theorem c7_timer_cancellation (w : World) (r : ServerRoom) (p : Player)
    (tid : Nat) (word sid : String) (t : ScheduledTask)
    (d k1 k2 k3 now k : Nat)
    (h : w.room = some r) (ht : r.timer = some tid)
    (hf : tid < w.nextTaskId) :
    (startGame w).pending.all (fun u => u.id != tid) = true
    ∧ (selectWord w word now).pending.all (fun u => u.id != tid) = true
    ∧ (startNewRound w d k1 k2 k3).pending.all (fun u => u.id != tid) = true
    ∧ (endRound w).pending.all (fun u => u.id != tid) = true
    ∧ (resetToLobby w).pending.all (fun u => u.id != tid) = true
    ∧ (r.players = [p] → p.socketId = sid →
        (leaveRoom w sid k).room = none
        ∧ (leaveRoom w sid k).pending.all (fun u => u.id != tid) = true)
    ∧ (w.pending.all (fun u => u.id != t.id) = true →
        fireTimer w t d k1 k2 k3 now = w) := by
  have hclear := pending_clear_all w r tid h ht
  have hfresh : ((⟨w.nextTaskId, TimerAction.gameCountdown, 3⟩ :
      ScheduledTask).id != tid) = true := by
    simp only [bne_iff_ne, ne_eq]
    omega
  refine ⟨?_, ?_, startNewRound_cancels w r tid d k1 k2 k3 h ht hf, ?_, ?_,
    ?_, ?_⟩
  · rw [startGame_pending w r h]
    simp only [List.all_append]
    simp [hclear, hfresh]
  · rw [selectWord_pending w r word now h]
    simp only [List.all_append]
    have : ((⟨w.nextTaskId, TimerAction.drawTimeout, r.drawTime⟩ :
        ScheduledTask).id != tid) = true := by
      simp only [bne_iff_ne, ne_eq]
      omega
    simp [hclear, this]
  · rw [endRound_pending w r h]
    simp only [List.all_append]
    have : ((⟨w.nextTaskId, TimerAction.reviewDelay, 5⟩ :
        ScheduledTask).id != tid) = true := by
      simp only [bne_iff_ne, ne_eq]
      omega
    simp [hclear, this]
  · rw [resetToLobby_pending w r h]
    exact hclear
  · intro hps hsid
    obtain ⟨room, pend, nid⟩ := w
    obtain rfl : room = some r := h
    have hfind : findPlayerIdx [p] sid = some 0 := by
      simp [findPlayerIdx, hsid]
    constructor
    · simp [leaveRoom, hps, hfind, removeAt]
    · have hpe : (leaveRoom ⟨some r, pend, nid⟩ sid k).pending
          = (clearRoomTimer ⟨some r, pend, nid⟩).pending := by
        simp [leaveRoom, hps, hfind, removeAt]
      rw [hpe]
      exact hclear
  · intro hnone
    have hany : ((w.pending.any (fun u => u.id == t.id)) = false) := by
      simp only [List.all_eq_true] at hnone
      simp only [List.any_eq_false]
      intro u hu
      have := hnone u hu
      simpa using this
    simp [fireTimer, hany]

/-- A solo game driven to the review phase and then reset and restarted:
the untracked review `setTimeout` survives both the reset and the
restart, ending with two live timers for the one room. -/
def traceC7 : World :=
  let t0 := createRoom "R2" "Solo" "av" "S" 60 3
  let t1 := startGame t0
  let t2 := startNewRound t1 0 0 0 0
  let t3 := selectWord t2 "CAT" 1000
  let t4 := endRound t3
  let t5 := resetToLobby t4
  startGame t5

/-- C7 (counterexample): the claim says at most one phase timer per room
is live at any instant.  In the reachable world `traceC7` two tasks are
live for the room at once — the stale, uncancellable review delay and
the restarted game countdown. -/
theorem c7_single_timer_counterexample :
    Reach traceC7 ∧ ¬ traceC7.pending.length ≤ 1 ∧
    (traceC7.pending.map ScheduledTask.action)
      = [TimerAction.reviewDelay, TimerAction.gameCountdown] := by
  refine ⟨?_, by decide, by decide⟩
  exact Reach.start _ (Reach.reset _ (Reach.endR _ (Reach.select _ "CAT" 1000
    (Reach.newRound _ 0 0 0 0 (Reach.start _
      (Reach.create "R2" "Solo" "av" "S" 60 3))))))

/-- The lone player of the C7 witness room. -/
def soloPlayer : Player :=
  { id := "S", socketId := "S", name := "Solo", score := 0, isHost := true,
    avatar := "av" }

/-- A one-player mid-game room whose draw timer (handle 2) is live, for
the C7 witness. -/
def roomSolo : ServerRoom :=
  { roomDrawing with
    players := [soloPlayer]
    currentDrawerId := some "S" }

/-- World around `roomSolo`. -/
def wSolo : World :=
  { room := some roomSolo,
    pending := [{ id := 2, action := .drawTimeout, duration := 60 }],
    nextTaskId := 3 }

/-- C7 (witness): the cancellation theorem applied to the concrete solo
room with recorded timer handle 2. -/
theorem c7_timer_cancellation_witness :
    (startGame wSolo).pending.all (fun u => u.id != 2) = true
    ∧ (selectWord wSolo "DOG" 7).pending.all (fun u => u.id != 2) = true
    ∧ (startNewRound wSolo 0 1 2 3).pending.all (fun u => u.id != 2) = true
    ∧ (endRound wSolo).pending.all (fun u => u.id != 2) = true
    ∧ (resetToLobby wSolo).pending.all (fun u => u.id != 2) = true
    ∧ (roomSolo.players = [soloPlayer] → soloPlayer.socketId = "S" →
        (leaveRoom wSolo "S" 0).room = none
        ∧ (leaveRoom wSolo "S" 0).pending.all (fun u => u.id != 2) = true)
    ∧ (wSolo.pending.all (fun u => u.id !=
          ({ id := 9, action := .reviewDelay, duration := 5 } :
            ScheduledTask).id) = true →
        fireTimer wSolo { id := 9, action := .reviewDelay, duration := 5 }
          0 1 2 3 7 = wSolo) :=
  c7_timer_cancellation wSolo roomSolo soloPlayer
    2 "DOG" "S" { id := 9, action := .reviewDelay, duration := 5 }
    0 1 2 3 7 0 rfl rfl (by decide)

/-! ### C9 — host uniqueness under membership and gameplay operations -/

theorem hostCount_bumpScoreFirst (ps : List Player) (pid : String) (n : Nat) :
    hostCount (bumpScoreFirst ps pid n) = hostCount ps := by
  induction ps with
  | nil => rfl
  | cons p rest ih =>
    by_cases hp : p.id = pid
    · simp [bumpScoreFirst, hp, hostCount, List.countP_cons]
    · simp only [hostCount] at ih
      simp [bumpScoreFirst, hp, hostCount, List.countP_cons, ih]

theorem hostCount_bumpScoreFirstOpt (ps : List Player) (d : Option String)
    (n : Nat) : hostCount (bumpScoreFirstOpt ps d n) = hostCount ps := by
  cases d with
  | none => rfl
  | some pid => exact hostCount_bumpScoreFirst ps pid n

theorem length_bumpScoreFirst (ps : List Player) (pid : String) (n : Nat) :
    (bumpScoreFirst ps pid n).length = ps.length := by
  induction ps with
  | nil => rfl
  | cons p rest ih =>
    by_cases hp : p.id = pid
    · simp [bumpScoreFirst, hp]
    · simp [bumpScoreFirst, hp, ih]

theorem length_bumpScoreFirstOpt (ps : List Player) (d : Option String)
    (n : Nat) : (bumpScoreFirstOpt ps d n).length = ps.length := by
  cases d with
  | none => rfl
  | some pid => exact length_bumpScoreFirst ps pid n

theorem hostCount_zeroScores (ps : List Player) :
    hostCount (ps.map (fun p => { p with score := 0 })) = hostCount ps := by
  induction ps with
  | nil => rfl
  | cons p rest ih =>
    simp only [hostCount] at ih
    simp [hostCount, List.countP_cons, ih]

theorem findPlayerIdx_lt (ps : List Player) (sid : String) (i : Nat)
    (h : findPlayerIdx ps sid = some i) : i < ps.length := by
  induction ps generalizing i with
  | nil => cases h
  | cons p rest ih =>
    by_cases hp : p.socketId = sid
    · simp only [findPlayerIdx, if_pos hp, Option.some.injEq] at h
      simp only [List.length_cons]
      omega
    · simp only [findPlayerIdx, if_neg hp, Option.map_eq_some'] at h
      obtain ⟨j, hj, rfl⟩ := h
      have := ih j hj
      simp
      omega

theorem removeAt_hostCount (ps : List Player) (i : Nat) (h : i < ps.length) :
    hostCount (removeAt ps i) +
      (if (ps.getD i dummyPlayer).isHost then 1 else 0) = hostCount ps := by
  induction ps generalizing i with
  | nil => simp at h
  | cons p rest ih =>
    cases i with
    | zero =>
      simp [removeAt, hostCount, List.countP_cons]
    | succ n =>
      simp only [removeAt, hostCount, List.countP_cons, List.getD_cons_succ]
      have := ih n (by simpa using h)
      simp only [hostCount] at this
      omega

theorem removeAt_length (ps : List Player) (i : Nat) (h : i < ps.length) :
    (removeAt ps i).length + 1 = ps.length := by
  induction ps generalizing i with
  | nil => simp at h
  | cons p rest ih =>
    cases i with
    | zero => simp [removeAt]
    | succ n =>
      have := ih n (by simpa using h)
      simp [removeAt]
      omega

theorem assignHostAt_length (ps : List Player) (i : Nat) :
    (assignHostAt ps i).length = ps.length := by
  induction ps generalizing i with
  | nil => rfl
  | cons p rest ih =>
    cases i with
    | zero => rfl
    | succ n => simp [assignHostAt, ih]

theorem assignHostAt_hostCount (ps : List Player) (i : Nat)
    (h : i < ps.length) (h0 : hostCount ps = 0) :
    hostCount (assignHostAt ps i) = 1 := by
  induction ps generalizing i with
  | nil => simp at h
  | cons p rest ih =>
    simp only [hostCount, List.countP_cons] at h0
    cases i with
    | zero =>
      cases hph : p.isHost with
      | true => simp [hph] at h0
      | false =>
        simp [hph] at h0
        simp [assignHostAt, hostCount, List.countP_cons]
        exact h0
    | succ n =>
      cases hph : p.isHost with
      | true => simp [hph] at h0
      | false =>
        simp [hph] at h0
        have := ih n (by simpa using h) (by simpa [hostCount] using h0)
        simp only [hostCount] at this ⊢
        simp [assignHostAt, List.countP_cons, this, hph]

/-- Membership statistics of a room: player count and host count.  Every
session operation except join/leave preserves them. -/
def statP (r : ServerRoom) : Nat × Nat :=
  (r.players.length, hostCount r.players)

theorem stat_scheduleTimer (w : World) (a : TimerAction) (d : Nat) :
    (scheduleTimer w a d).room.map statP = w.room.map statP := by
  obtain ⟨room, pend, nid⟩ := w
  cases room with
  | none => rfl
  | some r => rfl

theorem stat_endRound (w : World) :
    (endRound w).room.map statP = w.room.map statP := by
  obtain ⟨room, pend, nid⟩ := w
  cases room with
  | none => rfl
  | some r =>
    rw [endRound_room _ r rfl]
    rfl

theorem stat_startGame (w : World) :
    (startGame w).room.map statP = w.room.map statP := by
  obtain ⟨room, pend, nid⟩ := w
  cases room with
  | none => rfl
  | some r =>
    rw [startGame_room _ r rfl]
    rfl

theorem stat_selectWord (w : World) (word : String) (now : Nat) :
    (selectWord w word now).room.map statP = w.room.map statP := by
  obtain ⟨room, pend, nid⟩ := w
  cases room with
  | none => rfl
  | some r =>
    rw [selectWord_room _ r word now rfl]
    rfl

theorem stat_resetToLobby (w : World) :
    (resetToLobby w).room.map statP = w.room.map statP := by
  obtain ⟨room, pend, nid⟩ := w
  cases room with
  | none => rfl
  | some r =>
    simp only [resetToLobby, Option.map_some', statP, Option.some.injEq,
      Prod.mk.injEq]
    exact ⟨by simp, hostCount_zeroScores r.players⟩

theorem stat_startNewRoundFuel (fuel : Nat) (w : World) (d k1 k2 k3 : Nat) :
    (startNewRoundFuel fuel w d k1 k2 k3).room.map statP = w.room.map statP := by
  induction fuel generalizing w with
  | zero => rfl
  | succ n ih =>
    obtain ⟨room, pend, nid⟩ := w
    cases room with
    | none => rfl
    | some r =>
      simp only [startNewRoundFuel]
      repeat' split
      all_goals first
        | rfl
        | exact (ih _).trans rfl

theorem stat_startNewRound (w : World) (d k1 k2 k3 : Nat) :
    (startNewRound w d k1 k2 k3).room.map statP = w.room.map statP :=
  stat_startNewRoundFuel 2 w d k1 k2 k3

theorem stat_applyCorrectGuess (w : World) (r : ServerRoom) (sid : String) :
    (applyCorrectGuess w r sid).room.map statP = some (statP r) := by
  have hroom := applyCorrectGuess_room w r sid
  cases hx : (applyCorrectGuess w r sid).room with
  | none => rw [hx] at hroom; cases hroom
  | some rx =>
    rw [hx] at hroom
    simp only [Option.map_some', Option.some.injEq, Prod.mk.injEq] at hroom
    obtain ⟨hpl, hgc⟩ := hroom
    simp only [Option.map_some', Option.some.injEq, statP, Prod.mk.injEq]
    rw [hpl]
    constructor
    · rw [length_bumpScoreFirstOpt, length_bumpScoreFirst]
    · rw [hostCount_bumpScoreFirstOpt, hostCount_bumpScoreFirst]

theorem stat_processGuess (w : World) (sid g : String) :
    (processGuess w sid g).1.room.map statP = w.room.map statP := by
  obtain ⟨room, pend, nid⟩ := w
  cases room with
  | none => rfl
  | some r =>
    cases hsw : r.secretWord with
    | none => simp [processGuess, hsw]
    | some sw =>
      by_cases hg : sw = "" ∨ r.status ≠ RoomStatus.playing ∨
          r.roundPhase ≠ some RoundPhase.drawing
      · simp [processGuess, hsw, hg]
      · by_cases hd : some sid = r.currentDrawerId
        · simp [processGuess, hsw, hg, hd]
        · by_cases hm : jsToUpper (jsTrim g) = jsToUpper sw
          · by_cases hold : sid ∈ r.guessedCorrectly
            · simp [processGuess, hsw, hg, hd, hm, hold]
            · simp [processGuess, hsw, hg, hd, hm, hold,
                stat_applyCorrectGuess]
          · simp [processGuess, hsw, hg, hd, hm]

/-- Membership invariant of a live room: a non-empty player list with
exactly one host. -/
def RoomInv (w : World) : Prop :=
  ∀ r, w.room = some r → 0 < r.players.length ∧ hostCount r.players = 1

theorem roomInv_of_stat (w w2 : World)
    (hs : w2.room.map statP = w.room.map statP) (hi : RoomInv w) :
    RoomInv w2 := by
  intro r2 hr2
  rw [hr2] at hs
  cases hw : w.room with
  | none => rw [hw] at hs; cases hs
  | some r =>
    rw [hw] at hs
    simp only [Option.map_some', Option.some.injEq, statP, Prod.mk.injEq] at hs
    obtain ⟨h1, h2⟩ := hs
    obtain ⟨h3, h4⟩ := hi r hw
    exact ⟨by omega, by omega⟩

/-- Under the membership and gameplay operations, every live room keeps
a non-empty player list with exactly one host. -/
theorem reach_roomInv (w : World) (h : Reach w) : RoomInv w := by
  induction h with
  | create roomId username avatar socketId dt rds =>
    intro r hr
    obtain rfl : _ = r := Option.some.inj hr
    exact ⟨by simp, by simp [hostCount]⟩
  | join w u a s2 hw ih =>
    obtain ⟨room, pend, nid⟩ := w
    cases room with
    | none => exact ih
    | some r =>
      by_cases hfull : r.players.length ≥ r.maxPlayers
      · intro r2 hr2
        simp only [joinRoom, if_pos hfull] at hr2
        exact ih r2 hr2
      · intro r2 hr2
        simp only [joinRoom, if_neg hfull] at hr2
        obtain rfl : _ = r2 := Option.some.inj hr2
        obtain ⟨h3, h4⟩ := ih r rfl
        simp only [hostCount, List.countP_append, List.countP_cons,
          List.countP_nil] at h4 ⊢
        constructor
        · simp
        · simp
          omega
  | leave w s2 k hw ih =>
    obtain ⟨room, pend, nid⟩ := w
    cases room with
    | none => exact ih
    | some r =>
      cases hf : findPlayerIdx r.players s2 with
      | none =>
        intro r2 hr2
        simp only [leaveRoom, hf] at hr2
        exact ih r2 hr2
      | some idx =>
        have hlt := findPlayerIdx_lt r.players s2 idx hf
        obtain ⟨hpos, hone⟩ := ih r rfl
        by_cases hemp : (removeAt r.players idx).isEmpty = true
        · intro r2 hr2
          simp only [leaveRoom, hf, hemp, if_true] at hr2
          cases hr2
        · have hnonempty : 0 < (removeAt r.players idx).length := by
            cases hx : removeAt r.players idx with
            | nil => rw [hx] at hemp; exact absurd rfl hemp
            | cons a t => simp
          have hinv2 : ∀ ps2, ps2 =
              (if (r.players.getD idx dummyPlayer).isHost
               then assignHostAt (removeAt r.players idx)
                 (k % (removeAt r.players idx).length)
               else removeAt r.players idx) →
              0 < ps2.length ∧ hostCount ps2 = 1 := by
            intro ps2 hps2
            by_cases hwh : (r.players.getD idx dummyPlayer).isHost
            · rw [if_pos hwh] at hps2
              have hrc := removeAt_hostCount r.players idx hlt
              rw [if_pos hwh] at hrc
              have h0 : hostCount (removeAt r.players idx) = 0 := by omega
              have hmod : k % (removeAt r.players idx).length <
                  (removeAt r.players idx).length :=
                Nat.mod_lt k hnonempty
              subst hps2
              refine ⟨?_, assignHostAt_hostCount _ _ hmod h0⟩
              rw [assignHostAt_length]
              exact hnonempty
            · rw [if_neg hwh] at hps2
              have hrc := removeAt_hostCount r.players idx hlt
              rw [if_neg hwh] at hrc
              subst hps2
              exact ⟨hnonempty, by omega⟩
          intro r2 hr2
          simp only [leaveRoom, hf, hemp, if_false] at hr2
          by_cases hwd : r.currentDrawerId = some s2 ∧ r.status = RoomStatus.playing
          · rw [if_pos hwd] at hr2
            have hstat := stat_endRound
              ⟨some { r with players :=
                (if (r.players.getD idx dummyPlayer).isHost
                 then assignHostAt (removeAt r.players idx)
                   (k % (removeAt r.players idx).length)
                 else removeAt r.players idx) }, pend, nid⟩
            have hinv3 : RoomInv
              ⟨some { r with players :=
                (if (r.players.getD idx dummyPlayer).isHost
                 then assignHostAt (removeAt r.players idx)
                   (k % (removeAt r.players idx).length)
                 else removeAt r.players idx) }, pend, nid⟩ := by
              intro r3 hr3
              obtain rfl : _ = r3 := Option.some.inj hr3
              exact hinv2 _ rfl
            exact roomInv_of_stat _ _ hstat hinv3 r2 hr2
          · rw [if_neg hwd] at hr2
            obtain rfl : _ = r2 := Option.some.inj hr2
            exact hinv2 _ rfl
  | start w hw ih => exact roomInv_of_stat _ _ (stat_startGame w) ih
  | newRound w d k1 k2 k3 hw ih =>
    exact roomInv_of_stat _ _ (stat_startNewRound w d k1 k2 k3) ih
  | select w word now hw ih =>
    exact roomInv_of_stat _ _ (stat_selectWord w word now) ih
  | guess w sid g hw ih =>
    exact roomInv_of_stat _ _ (stat_processGuess w sid g) ih
  | endR w hw ih => exact roomInv_of_stat _ _ (stat_endRound w) ih
  | reset w hw ih => exact roomInv_of_stat _ _ (stat_resetToLobby w) ih

theorem map_hostlen_of_stat (w2 : World) (a b : Nat)
    (hs : w2.room.map statP = some (a, b)) :
    w2.room.map (fun r1 => (hostCount r1.players, r1.players.length + 1))
      = some (b, a + 1) := by
  cases hx : w2.room with
  | none => rw [hx] at hs; cases hs
  | some rx =>
    rw [hx] at hs
    simp only [Option.map_some', Option.some.injEq, statP, Prod.mk.injEq] at hs
    obtain ⟨h1, h2⟩ := hs
    simp [h1, h2]

/-- C9 (amended): under the membership and gameplay operations
(create, join, leave, start game, turn advance, select word, guess,
end round, reset to lobby — settings updates excluded, see the
counterexample), every reachable live room has a non-empty player list
with exactly one host; a joining player is never host; and when the
host leaves a room that stays non-empty, exactly one (randomly chosen)
remaining player becomes the new host while the player list shrinks by
exactly one. -/
theorem c9_host_invariant :
    (∀ w, Reach w → roomInvOK w = true)
    ∧ (∀ (w : World) (r : ServerRoom) (u a s2 : String), w.room = some r →
        r.players.length < r.maxPlayers →
        ((joinRoom w u a s2).1.room.map ServerRoom.players)
          = some (r.players ++
              [{ id := s2, socketId := s2, name := u, score := 0,
                 isHost := false, avatar := a }]))
    ∧ (∀ (w : World) (r : ServerRoom) (sid : String) (i k : Nat),
        w.room = some r →
        findPlayerIdx r.players sid = some i →
        (r.players.getD i dummyPlayer).isHost = true →
        hostCount r.players = 1 →
        removeAt r.players i ≠ [] →
        ((leaveRoom w sid k).room.map
            (fun r1 => (hostCount r1.players, r1.players.length + 1)))
          = some (1, r.players.length)) := by
  refine ⟨?_, ?_, ?_⟩
  · intro w h
    have hinv := reach_roomInv w h
    cases hx : w.room with
    | none => simp [roomInvOK, hx]
    | some r =>
      obtain ⟨h3, h4⟩ := hinv r hx
      simp [roomInvOK, hx, h3, h4]
  · intro w r u a s2 h hlt
    obtain ⟨room, pend, nid⟩ := w
    obtain rfl : room = some r := h
    have hfull : ¬ r.players.length ≥ r.maxPlayers := by omega
    simp [joinRoom, hfull]
  · intro w r sid i k h hf hwh hone hrem
    obtain ⟨room, pend, nid⟩ := w
    obtain rfl : room = some r := h
    have hlt := findPlayerIdx_lt r.players sid i hf
    have hne0 : 0 < (removeAt r.players i).length := List.length_pos.mpr hrem
    have hemp : ¬ ((removeAt r.players i).isEmpty = true) := by
      cases hx : removeAt r.players i with
      | nil => exact absurd hx hrem
      | cons a t => simp
    have hrc := removeAt_hostCount r.players i hlt
    rw [if_pos hwh] at hrc
    have h0 : hostCount (removeAt r.players i) = 0 := by omega
    have hmod : k % (removeAt r.players i).length <
        (removeAt r.players i).length := Nat.mod_lt k hne0
    have hlen : (removeAt r.players i).length + 1 = r.players.length :=
      removeAt_length _ _ hlt
    set ps2 := assignHostAt (removeAt r.players i)
      (k % (removeAt r.players i).length) with hps2def
    have hp2host : hostCount ps2 = 1 := assignHostAt_hostCount _ _ hmod h0
    have hp2len : ps2.length = (removeAt r.players i).length :=
      assignHostAt_length _ _
    simp only [leaveRoom, hf]
    rw [if_neg hemp, if_pos hwh, ← hps2def]
    by_cases hwd : r.currentDrawerId = some sid ∧ r.status = RoomStatus.playing
    · rw [if_pos hwd]
      have hstat := stat_endRound ⟨some { r with players := ps2 }, pend, nid⟩
      have hstat2 : (endRound
          ⟨some { r with players := ps2 }, pend, nid⟩).room.map statP
          = some ((removeAt r.players i).length, 1) := by
        rw [hstat]
        simp only [Option.map_some', Option.some.injEq, statP, Prod.mk.injEq]
        exact ⟨hp2len, hp2host⟩
      rw [map_hostlen_of_stat _ _ _ hstat2, hlen]
    · rw [if_neg hwd]
      simp only [Option.map_some', Option.some.injEq, Prod.mk.injEq]
      exact ⟨hp2host, by omega⟩

/-- A non-host player used by the hostless settings payload. -/
def evePlayer : Player :=
  { id := "X", socketId := "X", name := "Eve", score := 0, isHost := false,
    avatar := "av" }

/-- A second non-host player used by the hostless settings payload. -/
def malloryPlayer : Player :=
  { id := "Y", socketId := "Y", name := "Mallory", score := 0, isHost := false,
    avatar := "av" }

/-- A settings payload whose `players` key replaces the player list with
two non-host players; `update_settings` forwards such payloads from any
client with no validation. -/
def hostlessSettings : RoomSettings :=
  { emptySettings with players := some [evePlayer, malloryPlayer] }

/-- C9 (counterexample): the claim quantifies over every reachable room
state, but the unchecked `updateSettings` merge (exposed to every client
through the `update_settings` socket event, C10) can overwrite `players`
wholesale: after it, the room is non-empty with zero hosts. -/
theorem c9_host_counterexample :
    (updateSettings roomDrawing hostlessSettings).players ≠ []
    ∧ hostCount (updateSettings roomDrawing hostlessSettings).players = 0 :=
  ⟨by decide, by decide⟩

/-- The third player joining in the C9 witness. -/
def carolPlayer : Player :=
  { id := "C", socketId := "C", name := "Carol", score := 0, isHost := false,
    avatar := "av" }

/-- C9 (witness): the host-invariant theorem applied to concrete inputs:
a freshly created room satisfies the invariant; Carol joins the mid-game
room as a non-host; and when host (and drawer) Alice leaves, exactly one
host remains among one fewer players. -/
theorem c9_host_invariant_witness :
    roomInvOK (createRoom "ROOM01" "Alice" "av" "A" 60 3) = true
    ∧ ((joinRoom wDrawing "Carol" "av" "C").1.room.map ServerRoom.players)
        = some (roomDrawing.players ++ [carolPlayer])
    ∧ ((leaveRoom wDrawing "A" 1).room.map
        (fun r1 => (hostCount r1.players, r1.players.length + 1)))
        = some (1, roomDrawing.players.length) := by
  obtain ⟨h1, h2, h3⟩ := c9_host_invariant
  exact ⟨h1 _ (Reach.create "ROOM01" "Alice" "av" "A" 60 3),
         h2 wDrawing roomDrawing "Carol" "av" "C" rfl (by decide),
         h3 wDrawing roomDrawing "A" 0 1 rfl (by decide) (by decide)
           (by decide) (by decide)⟩

end Doodle
